import Mathlib

/-!
Verification of the qsiprep reconstruction spec-to-pipeline compiler
(`qsiprep/workflows/recon/build_workflow.py` and
`qsiprep/workflows/recon/base.py`) against its natural-language
specification.

The Python code is shallowly embedded: JSON node specs become the
`NodeSpec` structure (absent keys are `Option.none`), Python dicts
become insertion-ordered association lists, nipype workflow units
become `ProcUnit` values carrying their declared input/output slot
names, and every `raise` site becomes an `Except.error` with a
constructor named after the error class the specification assigns to
that site.  The external tool adapters (DSI Studio, MRTrix3, Dipy,
AMICO, pyAFQ and the internal utility workflows) are opaque leaf
collaborators; their statically declared slot contracts are a
parameter of the model (`Env.contract`).
-/

set_option maxHeartbeats 1000000

namespace QsiRecon

/-- Values stored in a node spec's free-form parameter mapping. -/
inductive PVal
  | pb (b : Bool)
  | ps (s : String)
  | pn (n : Int)
deriving DecidableEq, Repr

/-- A Python dict of parameters, modelled as an insertion-ordered association list
whose keys are unique. -/
abbrev Params := List (String × PVal)

/-- Python dict assignment `d[k] = v`: replace the value in place when the key is
present, otherwise append the new binding at the end (insertion order). -/
def setParam (ps : Params) (k : String) (v : PVal) : Params :=
  if ps.any (fun p => p.1 == k) then ps.map (fun p => if p.1 == k then (k, v) else p)
  else ps ++ [(k, v)]

/-- One node of the declarative workflow spec (one entry of the JSON list
`workflow_spec['nodes']`).  A missing JSON key is `none`. -/
structure NodeSpec where
  name : Option String
  software : Option String
  action : String
  parameters : Option Params
  output_suffix : Option String
  input : Option String
deriving DecidableEq, Repr

/-- The top-level workflow spec document. -/
structure WorkflowSpec where
  name : String
  space : String
  atlases : List String
  anatomical : List String
  nodes : List NodeSpec
deriving DecidableEq, Repr

/-- Actions dispatched for `software == "DSI Studio"` in `workflow_from_spec`. -/
def dsi_studio_actions : List String :=
  ["reconstruction", "export", "tractography", "connectivity", "autotrack"]

/-- Actions dispatched for `software == "MRTrix3"`. -/
def mrtrix_actions : List String :=
  ["csd", "global_tractography", "tractography", "connectivity"]

/-- Actions dispatched for `software == "Dipy"`. -/
def dipy_actions : List String :=
  ["3dSHORE_reconstruction", "MAPMRI_reconstruction", "DKI_reconstruction"]

/-- Actions dispatched for `software == "AMICO"`. -/
def amico_actions : List String := ["fit_noddi"]

/-- Actions dispatched for `software == "pyAFQ"`. -/
def pyafq_actions : List String := ["pyafq_tractometry"]

/-- Actions dispatched on the final `else` branch of `workflow_from_spec`
(the internal qsiprep backend). -/
def qsiprep_actions : List String :=
  ["controllability", "discard_repeated_samples", "conform", "mif_to_fib",
   "reorient_fslstd", "steinhardt_order_parameters"]

/-- The actions a given `software` tag can dispatch to, mirroring the
`if software == ... / elif ... / else` chain of `workflow_from_spec`: any
software tag other than the five recognized external backends falls through to
the internal qsiprep action set. -/
def actionsFor (software : String) : List String :=
  if software == "DSI Studio" then dsi_studio_actions
  else if software == "MRTrix3" then mrtrix_actions
  else if software == "Dipy" then dipy_actions
  else if software == "AMICO" then amico_actions
  else if software == "pyAFQ" then pyafq_actions
  else qsiprep_actions

/-- Whether the `(software, action)` pair reaches a `return init_..._wf(**kwargs)`
statement (rather than the final `raise Exception("Unknown node ...")`). -/
def builderExists (software action : String) : Bool :=
  (actionsFor software).contains action

/-- The backend whose builder actually runs for a software tag: the five
recognized tags keep themselves, everything else lands in the `else` branch. -/
def canonicalSoftware (software : String) : String :=
  if software == "DSI Studio" || software == "MRTrix3" || software == "Dipy" ||
     software == "AMICO" || software == "pyAFQ" then software else "qsiprep"

/-- Build-time context external to the compiler core.
`contract` is Modelled from the spec: the individual tool adapters
(`init_dsi_studio_recon_wf` and the other `init_*_wf` builders, whose sources
are outside this subsystem) "declare statically which named input slots they
require and which named output slots they produce", independent of parameters;
`contract backend action` returns that (input slots, output slots) pair.
`recon_workflow_input_fields` and `default_input_set` are the fixed field lists
imported from `qsiprep.interfaces.interchange`. -/
structure Env where
  contract : String → String → List String × List String
  recon_workflow_input_fields : List String
  default_input_set : List String

/-- An instantiated processing unit (the nipype sub-workflow returned by a
builder): its name, the fields of its `inputnode`, the fields of its
`outputnode`, the parameters it was built with, its output suffix, and the
`base_directory` input that the sink pass may assign. -/
structure ProcUnit where
  name : String
  inSlots : List String
  outSlots : List String
  params : Params
  output_suffix : String
  baseDirectory : Option String
deriving DecidableEq, Repr

/-- The error taxonomy: one constructor per `raise` site of the subsystem,
named after the error class the specification assigns to that site. -/
inductive BuildErr
  | noName
  | unknownNode
  | duplicateNodeName
  | unresolvedUpstream
  | duplicateConnection
deriving DecidableEq, Repr

/-- The source endpoint of a connection: either the pipeline's global source
node (`inputnode` of the recon workflow) or a named upstream unit. -/
inductive CSource
  | global
  | unit (name : String)
deriving DecidableEq, Repr

/-- A directed connection `(source, source slot, destination unit, destination
slot)` as created by `workflow.connect`. -/
structure Conn where
  src : CSource
  srcSlot : String
  dst : String
  dstSlot : String
deriving DecidableEq, Repr

/-- The assembled pipeline: the instantiated units plus the connection list. -/
structure Pipeline where
  units : List ProcUnit
  conns : List Conn
deriving DecidableEq, Repr

/-- Embedding of `_as_connections(attr_list, src_prefix, dest_prefix)`. -/
def as_connections (attr_list : List String) (srcPre dstPre : String) :
    List (String × String) :=
  attr_list.map (fun item => (srcPre ++ item, dstPre ++ item))

/-- Embedding of `_check_repeats(nodelist)`: the run-once duplicate-name
detector, which compares the length of the list with the number of distinct
entries and is `true` exactly when no raise happens. -/
def _check_repeats (nodelist : List String) : Bool :=
  nodelist.length == nodelist.dedup.length

/-- Embedding of `workflow.get_node(name)` restricted to the top-level units. -/
def lookupUnit (units : List ProcUnit) (nm : String) : Option ProcUnit :=
  units.find? (fun u => u.name == nm)

/-- Embedding of `workflow_from_spec(omp_nthreads, available_anatomical_data,
node_spec, skip_odf_plots)`.  Because `parameters = node_spec.get("parameters", {})`
aliases the stored dict, the in-place update `parameters['plot_reports'] = False`
also mutates the node spec whenever it stores a `parameters` mapping; the second
component of the result is the node spec as it stands after the call. -/
def workflow_from_spec (env : Env) (skip_odf_plots : Bool) (ns : NodeSpec) :
    Except BuildErr ProcUnit × NodeSpec :=
  let software := ns.software.getD "qsiprep"
  let outSuffix := ns.output_suffix.getD ""
  let parameters0 := ns.parameters.getD []
  let parameters :=
    if skip_odf_plots then setParam parameters0 "plot_reports" (PVal.pb false)
    else parameters0
  let ns' :=
    if skip_odf_plots && ns.parameters.isSome then { ns with parameters := some parameters }
    else ns
  match ns.name with
  | none => (Except.error BuildErr.noName, ns')
  | some nm =>
    if builderExists software ns.action then
      let c := env.contract (canonicalSoftware software) ns.action
      (Except.ok { name := nm, inSlots := c.1, outSlots := c.2, params := parameters,
                   output_suffix := outSuffix, baseDirectory := none }, ns')
    else (Except.error BuildErr.unknownNode, ns')

/-- One step of Pass 1 of `init_dwi_recon_workflow`: the guard
`if not node_spec['name']: raise ...` (which fires on a missing or empty name)
followed by the call to `workflow_from_spec`. -/
def resolveNode (env : Env) (skip_odf_plots : Bool) (ns : NodeSpec) :
    Except BuildErr ProcUnit :=
  match ns.name with
  | none => Except.error BuildErr.noName
  | some nm =>
    if nm == "" then Except.error BuildErr.noName
    else (workflow_from_spec env skip_odf_plots ns).1

/-- Pass 1 of `init_dwi_recon_workflow`: resolve every node spec in order,
aborting at the first failure. -/
def buildPass1 (env : Env) (skip_odf_plots : Bool) :
    List NodeSpec → Except BuildErr (List ProcUnit)
  | [] => Except.ok []
  | ns :: rest =>
    match resolveNode env skip_odf_plots ns with
    | Except.error e => Except.error e
    | Except.ok u =>
      match buildPass1 env skip_odf_plots rest with
      | Except.error e => Except.error e
      | Except.ok us => Except.ok (u :: us)

/-- Embedding of the duplicate-destination guard of `workflow.connect`: a new
connection whose `(destination, destination slot)` pair is already connected
raises; otherwise the connections are appended one by one. -/
def addConns (conns : List Conn) : List Conn → Except BuildErr (List Conn)
  | [] => Except.ok conns
  | c :: rest =>
    if conns.any (fun d => d.dst == c.dst && d.dstSlot == c.dstSlot) then
      Except.error BuildErr.duplicateConnection
    else addConns (conns ++ [c]) rest

/-- Embedding of `connect_from_upstream = upstream_outputs.intersection(downstream_inputs)`:
the set of the upstream unit's outputnode keys intersected with the set of the
destination's inputnode keys. -/
def connect_from_upstream (up me : ProcUnit) : List String :=
  up.outSlots.dedup.filter (fun s => decide (s ∈ me.inSlots.dedup))

/-- Embedding of `connect_from_qsiprep = default_input_set - connect_from_upstream`. -/
def connect_from_qsiprep (env : Env) (up me : ProcUnit) : List String :=
  env.default_input_set.filter (fun s => decide (s ∉ connect_from_upstream up me))

/-- The connections created by the two `workflow.connect` calls of the
upstream-node branch of Pass 2 (lines 92-104 of `build_workflow.py`): first the
global-source remainder, then the upstream intersection. -/
def upstreamCaseConns (env : Env) (nm upstreamName : String) (up me : ProcUnit) :
    List Conn :=
  (as_connections (connect_from_qsiprep env up me) "" "inputnode.").map
    (fun pr => { src := CSource.global, srcSlot := pr.1, dst := nm, dstSlot := pr.2 })
  ++ (as_connections (connect_from_upstream up me) "outputnode." "inputnode.").map
    (fun pr => { src := CSource.unit upstreamName, srcSlot := pr.1, dst := nm,
                 dstSlot := pr.2 })

/-- The connections created by the global-source branch of Pass 2 (lines 70-72
of `build_workflow.py`): every field of `recon_workflow_input_fields` wired
from the global source. -/
def qsiprepSentinelConns (env : Env) (nm : String) : List Conn :=
  (as_connections env.recon_workflow_input_fields "" "inputnode.").map
    (fun pr => { src := CSource.global, srcSlot := pr.1, dst := nm, dstSlot := pr.2 })

/-- The upstream-node branch of the Pass-2 loop: fetch the upstream unit and
the destination's inputnode (a missing upstream node makes the
`upstream_outputnode.outputs` attribute access blow up), wire the two
connection sets, and run the in-loop `_check_repeats` guard. -/
def routeUpstream (env : Env) (units : List ProcUnit) (nm upstreamName : String) :
    Except BuildErr (List Conn) :=
  match lookupUnit units upstreamName, lookupUnit units nm with
  | some up, some me =>
    if _check_repeats (units.map (fun u => u.name)) then
      Except.ok (upstreamCaseConns env nm upstreamName up me)
    else Except.error BuildErr.duplicateNodeName
  | _, _ => Except.error BuildErr.unresolvedUpstream

/-- The Connection Router: the body of the Pass-2 loop of
`init_dwi_recon_workflow` for a single node spec.  When
`node_spec.get('input', 'qsiprep') == 'qsiprep'` every field of
`recon_workflow_input_fields` is wired from the global source; otherwise the
upstream unit's output-slot set is intersected with the destination's
input-slot set, that intersection is wired from the upstream unit, and
`default_input_set` minus the intersection is wired from the global source. -/
def routeNode (env : Env) (units : List ProcUnit) (ns : NodeSpec) :
    Except BuildErr (List Conn) :=
  match ns.name with
  | none => Except.error BuildErr.noName
  | some nm =>
    if ns.input.getD "qsiprep" == "qsiprep" then
      Except.ok (qsiprepSentinelConns env nm)
    else routeUpstream env units nm (ns.input.getD "qsiprep")

/-- Pass 2 of `init_dwi_recon_workflow`: route every node spec in order,
accumulating connections through the duplicate-destination guard. -/
def buildPass2 (env : Env) (units : List ProcUnit) :
    List NodeSpec → List Conn → Except BuildErr (List Conn)
  | [], conns => Except.ok conns
  | ns :: rest, conns =>
    match routeNode env units ns with
    | Except.error e => Except.error e
    | Except.ok new =>
      match addConns conns new with
      | Except.error e => Except.error e
      | Except.ok conns' => buildPass2 env units rest conns'

/-- Embedding of `node.split('.')[-1]` applied to a hierarchical node name:
split the character list on `'.'` and keep the trailing component. -/
def splitOnDot : List Char → List (List Char)
  | [] => [[]]
  | c :: cs =>
    match splitOnDot cs with
    | [] => [[]]
    | h :: t => if c = '.' then [] :: h :: t else (c :: h) :: t

/-- The trailing name component of a (possibly hierarchical) node name. -/
def nodeSuffix (s : String) : String :=
  String.mk ((splitOnDot s.data).getLastD [])

/-- Python `s.startswith(pre)`. -/
def strStartsWith (s pre : String) : Bool :=
  pre.data.isPrefixOf s.data

/-- Naive contiguous-sublist test on character lists. -/
def listIsInfix (pat : List Char) : List Char → Bool
  | [] => pat.isEmpty
  | c :: rest => pat.isPrefixOf (c :: rest) || listIsInfix pat rest

/-- Python `pat in s` (substring containment). -/
def strContains (s pat : String) : Bool :=
  listIsInfix pat.data s.data

/-- The provenance connection `workflow.connect(inputnode, 'dwi_file', node,
'source_file')` the sink pass creates for a strict-sub-prefix sink. -/
def sinkConn (n : String) : Conn :=
  { src := CSource.global, srcSlot := "dwi_file", dst := n, dstSlot := "source_file" }

/-- The `base_dir = reportlets_dir if "report" in node_suffix else output_dir`
assignment of the sink pass. -/
def sinkBaseDir (output_dir reportlets_dir : String) (n : String) : String :=
  if strContains (nodeSuffix n) "report" then reportlets_dir else output_dir

/-- Setting `base_directory` on the visited node (the node is found by name, so
the update touches exactly the units whose name is the visited one). -/
def sinkUnits (p : Pipeline) (n : String) (base_dir : String) : List ProcUnit :=
  p.units.map (fun u =>
    if u.name == n then { u with baseDirectory := some base_dir } else u)

/-- The body of the sink pass for a node whose trailing component starts with
`'ds'`: assign `base_directory`, and for the stricter `'ds_'` prefix also wire
`'source_file'` from the global source's `'dwi_file'` field (through the
duplicate-destination guard of `workflow.connect`). -/
def sinkStepSink (output_dir reportlets_dir : String) (p : Pipeline) (n : String) :
    Except BuildErr Pipeline :=
  if strStartsWith (nodeSuffix n) "ds_" then
    match addConns p.conns [sinkConn n] with
    | Except.error e => Except.error e
    | Except.ok conns' =>
      Except.ok { units := sinkUnits p n (sinkBaseDir output_dir reportlets_dir n),
                  conns := conns' }
  else Except.ok { units := sinkUnits p n (sinkBaseDir output_dir reportlets_dir n),
                   conns := p.conns }

/-- One step of the sink-attachment post-pass of `init_dwi_recon_workflow` for
one visited node name: a trailing component starting with `'ds'` marks a
persistence sink. -/
def sinkStep (output_dir reportlets_dir : String) (p : Pipeline) (n : String) :
    Except BuildErr Pipeline :=
  if strStartsWith (nodeSuffix n) "ds" then sinkStepSink output_dir reportlets_dir p n
  else Except.ok p

/-- The sink-attachment post-pass: visit the node names in order. -/
def sinkPass (output_dir reportlets_dir : String) :
    List String → Pipeline → Except BuildErr Pipeline
  | [], p => Except.ok p
  | n :: rest, p =>
    match sinkStep output_dir reportlets_dir p n with
    | Except.error e => Except.error e
    | Except.ok p' => sinkPass output_dir reportlets_dir rest p'

/-- Embedding of `init_dwi_recon_workflow(workflow_spec, output_dir,
reportlets_dir, ...)`: Pass 1 (resolve and insert all nodes), the run-once
`_check_repeats` duplicate-name detection, Pass 2 (wire all edges), and the
sink-attachment post-pass. -/
def init_dwi_recon_workflow (env : Env) (output_dir reportlets_dir : String)
    (skip_odf_plots : Bool) (spec : WorkflowSpec) : Except BuildErr Pipeline :=
  match buildPass1 env skip_odf_plots spec.nodes with
  | Except.error e => Except.error e
  | Except.ok units =>
    if _check_repeats (units.map (fun u => u.name)) then
      match buildPass2 env units spec.nodes [] with
      | Except.error e => Except.error e
      | Except.ok conns =>
        sinkPass output_dir reportlets_dir (units.map (fun u => u.name))
          { units := units, conns := conns }
    else Except.error BuildErr.duplicateNodeName

/-- The per-subject workflow assembled by `init_single_subject_wf`: one recon
pipeline per matching dwi file. -/
structure SubjectWf where
  reconWfs : List Pipeline
deriving DecidableEq, Repr

/-- Embedding of the core of `init_single_subject_wf`: `dwi_files` is the list
of preprocessed scans found for the subject; when it is empty the workflow is
returned before any reconstruction node is created, otherwise one recon
workflow per dwi file is built from the same spec. -/
def init_single_subject_wf (env : Env) (output_dir reportlets_dir : String)
    (skip_odf_plots : Bool) (spec : WorkflowSpec) (dwi_files : List String) :
    Except BuildErr SubjectWf :=
  if dwi_files.length = 0 then Except.ok { reconWfs := [] }
  else
    match dwi_files.foldlM (fun acc _ =>
        match init_dwi_recon_workflow env output_dir reportlets_dir skip_odf_plots spec with
        | Except.error e => Except.error e
        | Except.ok p => Except.ok (acc ++ [p])) ([] : List Pipeline) with
    | Except.error e => Except.error e
    | Except.ok ps => Except.ok { reconWfs := ps }

/-- The directed edge relation between units induced by a pipeline's
connections. -/
def unitEdge (p : Pipeline) (a b : String) : Prop :=
  ∃ c ∈ p.conns, c.src = CSource.unit a ∧ c.dst = b

/-- A pipeline contains a directed cycle among its units. -/
def HasCycle (p : Pipeline) : Prop :=
  ∃ a l, List.Chain (unitEdge p) a (l ++ [a])

/-- No two connections target the same (destination unit, destination slot)
pair. -/
def noDupTargets (p : Pipeline) : Prop :=
  (p.conns.map (fun c => (c.dst, c.dstSlot))).Nodup

/-- The source endpoint of a connection names a unit of the pipeline (or is the
global source). -/
def srcOk (names : List String) (c : Conn) : Bool :=
  match c.src with
  | CSource.global => true
  | CSource.unit u => names.contains u

/-- Every connection's endpoints exist: the destination is a unit of the
pipeline and the source is a unit of the pipeline or the global source. -/
def noDangling (p : Pipeline) : Prop :=
  ∀ c ∈ p.conns, c.dst ∈ p.units.map (fun u => u.name) ∧
    srcOk (p.units.map (fun u => u.name)) c = true

/-- The name of a node spec with the empty string standing for a missing name
(a successfully resolved node never has an empty name). -/
def nameD (ns : NodeSpec) : String :=
  ns.name.getD ""

/-- The provenance connections the sink pass appends when visiting `names`. -/
def strictConns (names : List String) : List Conn :=
  (names.filter (fun n => strStartsWith (nodeSuffix n) "ds_")).map sinkConn

/-- The per-unit effect of the sink pass on `base_directory`. -/
def sinkUpd (output_dir reportlets_dir : String) (names : List String)
    (u : ProcUnit) : ProcUnit :=
  if names.contains u.name && strStartsWith (nodeSuffix u.name) "ds" then
    { u with baseDirectory := some (sinkBaseDir output_dir reportlets_dir u.name) }
  else u

/-- Whether some connection already fills the `(n, 'source_file')` destination
slot. -/
def keyHit (conns : List Conn) (n : String) : Bool :=
  conns.any (fun d => d.dst == n && d.dstSlot == "source_file")

/-- A small concrete environment used to exercise the theorems: every builder
declares input slot `dwi_file` and output slot `conformed_dwi`. -/
def envW : Env :=
  { contract := fun _ _ => (["dwi_file"], ["conformed_dwi"]),
    recon_workflow_input_fields := ["dwi_file", "bval"],
    default_input_set := ["dwi_file", "bval"] }

/-- A node spec carrying a stored parameter mapping. -/
def nsC2 : NodeSpec :=
  { name := some "x", software := none, action := "conform",
    parameters := some [("a", PVal.pn 1)], output_suffix := none, input := none }

/-- A node spec naming an unrecognized software backend together with an
internal action. -/
def nsC3 : NodeSpec :=
  { name := some "x", software := some "SomeFancyNewTool", action := "conform",
    parameters := none, output_suffix := none, input := none }

/-- An environment in which the conform builder consumes and produces the slot
`dwi_file`. -/
def envC4 : Env :=
  { contract := fun _ _ => (["dwi_file"], ["dwi_file"]),
    recon_workflow_input_fields := ["dwi_file"],
    default_input_set := ["bval"] }

/-- A spec whose two nodes name each other as `input`. -/
def specC4 : WorkflowSpec :=
  { name := "s", space := "T1w", atlases := [], anatomical := [],
    nodes := [{ name := some "n1", software := none, action := "conform",
                parameters := none, output_suffix := none, input := some "n2" },
              { name := some "n2", software := none, action := "conform",
                parameters := none, output_suffix := none, input := some "n1" }] }

/-- The pipeline the builder returns for `specC4` under `envC4`. -/
def pC4 : Pipeline :=
  { units := [{ name := "n1", inSlots := ["dwi_file"], outSlots := ["dwi_file"],
                params := [], output_suffix := "", baseDirectory := none },
              { name := "n2", inSlots := ["dwi_file"], outSlots := ["dwi_file"],
                params := [], output_suffix := "", baseDirectory := none }],
    conns := [{ src := CSource.global, srcSlot := "bval", dst := "n1", dstSlot := "inputnode.bval" },
              { src := CSource.unit "n2", srcSlot := "outputnode.dwi_file", dst := "n1",
                dstSlot := "inputnode.dwi_file" },
              { src := CSource.global, srcSlot := "bval", dst := "n2", dstSlot := "inputnode.bval" },
              { src := CSource.unit "n1", srcSlot := "outputnode.dwi_file", dst := "n2",
                dstSlot := "inputnode.dwi_file" }] }

/-- The connection from unit n1 to unit n2 inside `pC4`. -/
def cycEdge12 : Conn :=
  ⟨CSource.unit "n1", "outputnode.dwi_file", "n2", "inputnode.dwi_file"⟩

/-- The connection from unit n2 to unit n1 inside `pC4`. -/
def cycEdge21 : Conn :=
  ⟨CSource.unit "n2", "outputnode.dwi_file", "n1", "inputnode.dwi_file"⟩

/-- A pipeline holding a single strict-prefix sink and no connections. -/
def pC8 : Pipeline :=
  { units := [{ name := "ds_x", inSlots := [], outSlots := [], params := [],
                output_suffix := "", baseDirectory := none }],
    conns := [] }

/-- The result of running the sink pass once over `pC8`. -/
def pC8' : Pipeline :=
  { units := [{ name := "ds_x", inSlots := [], outSlots := [], params := [],
                output_suffix := "", baseDirectory := some "o" }],
    conns := [sinkConn "ds_x"] }

/-- An upstream unit used to exercise the router. -/
def upC1 : ProcUnit :=
  { name := "up", inSlots := ["x"], outSlots := ["a", "b"], params := [],
    output_suffix := "", baseDirectory := none }

/-- A destination unit used to exercise the router. -/
def meC1 : ProcUnit :=
  { name := "me", inSlots := ["a", "c"], outSlots := ["z"], params := [],
    output_suffix := "", baseDirectory := none }

/-- The unit list holding the two units above. -/
def unitsC1 : List ProcUnit := [upC1, meC1]

/-- A node spec naming upC1 as its upstream input. -/
def nsC1 : NodeSpec :=
  { name := some "me", software := none, action := "conform", parameters := none,
    output_suffix := none, input := some "up" }

/-- A pipeline holding one reportlet sink, one plain strict sink, one sink whose name contains the reportlet marker without the strict prefix, and one non-sink. -/
def pC7 : Pipeline :=
  { units := [{ name := "ds_report_a", inSlots := [], outSlots := [], params := [],
                output_suffix := "", baseDirectory := none },
              { name := "ds_b", inSlots := [], outSlots := [], params := [],
                output_suffix := "", baseDirectory := none },
              { name := "dsreport_c", inSlots := [], outSlots := [], params := [],
                output_suffix := "", baseDirectory := none },
              { name := "other", inSlots := [], outSlots := [], params := [],
                output_suffix := "", baseDirectory := none }],
    conns := [] }

/-- The result of running the sink pass over pC7. -/
def outC7 : Pipeline :=
  { units := [{ name := "ds_report_a", inSlots := [], outSlots := [], params := [],
                output_suffix := "", baseDirectory := some "r" },
              { name := "ds_b", inSlots := [], outSlots := [], params := [],
                output_suffix := "", baseDirectory := some "o" },
              { name := "dsreport_c", inSlots := [], outSlots := [], params := [],
                output_suffix := "", baseDirectory := some "r" },
              { name := "other", inSlots := [], outSlots := [], params := [],
                output_suffix := "", baseDirectory := none }],
    conns := [sinkConn "ds_report_a", sinkConn "ds_b"] }

/-- The empty pipeline. -/
def pE8 : Pipeline := { units := [], conns := [] }

/-- The pipeline after the sink pass visited the names ds_a and x over the empty pipeline. -/
def outE8 : Pipeline := { units := [], conns := [sinkConn "ds_a"] }

/-- A spec with one sentinel-input node and one strict-prefix sink node fed from it. -/
def specW : WorkflowSpec :=
  { name := "s", space := "T1w", atlases := [], anatomical := [],
    nodes := [{ name := some "n1", software := none, action := "conform",
                parameters := none, output_suffix := none, input := none },
              { name := some "ds_n2", software := some "MRTrix3", action := "csd",
                parameters := none, output_suffix := none, input := some "n1" }] }

/-- The unit the builder creates for the node n1 of specW. -/
def uW1 : ProcUnit :=
  { name := "n1", inSlots := ["dwi_file"], outSlots := ["conformed_dwi"], params := [],
    output_suffix := "", baseDirectory := none }

/-- The pipeline the builder returns for specW under envW. -/
def pW : Pipeline :=
  { units := [uW1,
              { name := "ds_n2", inSlots := ["dwi_file"], outSlots := ["conformed_dwi"],
                params := [], output_suffix := "", baseDirectory := some "o" }],
    conns := [Conn.mk CSource.global "dwi_file" "n1" "inputnode.dwi_file",
              Conn.mk CSource.global "bval" "n1" "inputnode.bval",
              Conn.mk CSource.global "dwi_file" "ds_n2" "inputnode.dwi_file",
              Conn.mk CSource.global "bval" "ds_n2" "inputnode.bval",
              Conn.mk CSource.global "dwi_file" "ds_n2" "source_file"] }

/-- The first node of specW (sentinel input). -/
def nsC6W : NodeSpec :=
  { name := some "n1", software := none, action := "conform", parameters := none,
    output_suffix := none, input := none }

deriving instance DecidableEq for Except

/-!  General lemmas about the embedded operations. -/

theorem check_repeats_iff (l : List String) : _check_repeats l = true ↔ l.Nodup := by
  unfold _check_repeats
  rw [beq_iff_eq]
  constructor
  · intro h
    have := List.Sublist.eq_of_length (List.dedup_sublist l) h.symm
    exact List.dedup_eq_self.mp this
  · intro h
    rw [List.dedup_eq_self.mpr h]

theorem lookup_map_setKey (k : String) (v : PVal) :
    ∀ ps : Params, ps.any (fun p => p.1 == k) = true →
      (ps.map (fun p => if p.1 == k then (k, v) else p)).lookup k = some v := by
  intro ps
  induction ps with
  | nil => intro h; simp at h
  | cons hd tl ih =>
    intro h
    by_cases hk : hd.1 = k
    · have h1 : (if (hd.1 == k) = true then (k, v) else hd) = (k, v) := by
        rw [if_pos (by simp [hk])]
      rw [List.map_cons, h1]
      simp [List.lookup]
    · have hf : (hd.1 == k) = false := beq_eq_false_iff_ne.mpr hk
      have hf' : (k == hd.1) = false := beq_eq_false_iff_ne.mpr (Ne.symm hk)
      have h1 : (if (hd.1 == k) = true then (k, v) else hd) = hd := by
        rw [if_neg (by simp [hk])]
      have htl : tl.any (fun p => p.1 == k) = true := by
        simp only [List.any_cons, hf, Bool.false_or] at h
        exact h
      rw [List.map_cons, h1]
      simp only [List.lookup, hf']
      exact ih htl

theorem lookup_append_key (k : String) (v : PVal) :
    ∀ ps : Params, ps.any (fun p => p.1 == k) = false →
      (ps ++ [(k, v)]).lookup k = some v := by
  intro ps
  induction ps with
  | nil => intro _; simp [List.lookup]
  | cons hd tl ih =>
    intro h
    simp only [List.any_cons, Bool.or_eq_false_iff] at h
    have hf' : (k == hd.1) = false :=
      beq_eq_false_iff_ne.mpr (Ne.symm (beq_eq_false_iff_ne.mp h.1))
    simp only [List.cons_append, List.lookup, hf']
    exact ih h.2

theorem lookup_setParam (ps : Params) (k : String) (v : PVal) :
    (setParam ps k v).lookup k = some v := by
  unfold setParam
  split
  case isTrue h => exact lookup_map_setKey k v ps h
  case isFalse h =>
    have h' : ps.any (fun p => p.1 == k) = false := by
      cases hb : ps.any (fun p => p.1 == k)
      · rfl
      · exact absurd hb h
    exact lookup_append_key k v ps h'

theorem addConns_ok (conns new out : List Conn)
    (h : addConns conns new = Except.ok out) : out = conns ++ new := by
  induction new generalizing conns with
  | nil => simpa [addConns] using h.symm
  | cons c rest ih =>
    unfold addConns at h
    split at h
    · exact absurd h (by simp)
    · have := ih (conns ++ [c]) h
      simpa [List.append_assoc] using this

theorem wfs_fst_none (env : Env) (skip : Bool) (ns : NodeSpec) (hns : ns.name = none) :
    (workflow_from_spec env skip ns).1 = Except.error BuildErr.noName := by
  unfold workflow_from_spec
  rw [hns]

theorem wfs_fst (env : Env) (skip : Bool) (ns : NodeSpec) (nm : String)
    (hns : ns.name = some nm) :
    (workflow_from_spec env skip ns).1 =
      (if builderExists (ns.software.getD "qsiprep") ns.action then
        Except.ok { name := nm,
                    inSlots := (env.contract (canonicalSoftware (ns.software.getD "qsiprep")) ns.action).1,
                    outSlots := (env.contract (canonicalSoftware (ns.software.getD "qsiprep")) ns.action).2,
                    params := if skip then setParam (ns.parameters.getD []) "plot_reports" (PVal.pb false)
                              else ns.parameters.getD [],
                    output_suffix := ns.output_suffix.getD "",
                    baseDirectory := none }
       else Except.error BuildErr.unknownNode) := by
  unfold workflow_from_spec
  rw [hns]
  dsimp only
  split <;> rfl

theorem wfs_snd (env : Env) (skip : Bool) (ns : NodeSpec) :
    (workflow_from_spec env skip ns).2 =
      if skip && ns.parameters.isSome then
        { ns with parameters := some (setParam (ns.parameters.getD []) "plot_reports" (PVal.pb false)) }
      else ns := by
  cases skip <;> unfold workflow_from_spec <;>
    rcases hns : ns.name with _ | nm <;> dsimp only <;>
    first
      | rfl
      | (split <;> rfl)

/-!  Claim theorems. -/

/-- C9: for every subject whose spec yields zero matching input scans, the
per-subject assembly returns an explicitly empty pipeline (no reconstruction
workflows) and does not raise an error. -/
theorem c9_empty_subject (env : Env) (outD repD : String) (skip : Bool) (spec : WorkflowSpec) :
    init_single_subject_wf env outD repD skip spec [] = Except.ok { reconWfs := [] } := rfl

/-- C10: the sentinel value for `input` is the literal string "qsiprep": when
`input` is absent or equals "qsiprep", the router wires the node from the
global source's `recon_workflow_input_fields`, and the result does not depend
on the unit list at all — in particular a unit named "qsiprep" present among
`units` is never consulted as an upstream source. -/
theorem c10_sentinel_literal (env : Env) (units : List ProcUnit) (ns : NodeSpec) (nm : String)
    (hname : ns.name = some nm) (hsent : ns.input = none ∨ ns.input = some "qsiprep") :
    routeNode env units ns =
      Except.ok (env.recon_workflow_input_fields.map (fun f =>
        { src := CSource.global, srcSlot := f, dst := nm, dstSlot := "inputnode." ++ f })) := by
  have hget : ns.input.getD "qsiprep" = "qsiprep" := by
    rcases hsent with h | h <;> rw [h] <;> rfl
  unfold routeNode
  rw [hname]
  dsimp only
  rw [hget]
  simp only [beq_self_eq_true, if_true, qsiprepSentinelConns, as_connections, List.map_map]
  rfl

/-- Witness for C10: a spec node with `input = "qsiprep"` is routed from the
global source even though the unit list contains a unit literally named
"qsiprep" whose outputs overlap the destination's inputs. -/
theorem c10_sentinel_literal_witness :
    routeNode envW
      [{ name := "qsiprep", inSlots := ["dwi_file"], outSlots := ["dwi_file"],
         params := [], output_suffix := "", baseDirectory := none }]
      { name := some "a", software := none, action := "conform", parameters := none,
        output_suffix := none, input := some "qsiprep" } =
      Except.ok (envW.recon_workflow_input_fields.map (fun f =>
        { src := CSource.global, srcSlot := f, dst := "a", dstSlot := "inputnode." ++ f })) :=
  c10_sentinel_literal envW _ _ "a" rfl (Or.inr rfl)

/-- C2 counterexample: with the plot-skip flag set, resolving a NodeSpec that
stores a parameter mapping mutates that stored mapping (the dict obtained via
`node_spec.get("parameters", {})` aliases the spec), so the original spec's
`parameters` is not unchanged after resolution. -/
theorem c2_copy_on_write_counterexample :
    (workflow_from_spec envW true nsC2).2.parameters ≠ nsC2.parameters := by decide

/-- C2 (amended): when the plot-skip flag is set, resolving any NodeSpec
(regardless of backend) produces a unit whose parameters include
`plot_reports = False`; but resolution is not copy-on-write: when the NodeSpec
stores a `parameters` mapping, that mapping is updated in place with the
override, and only a NodeSpec without a stored mapping is left unchanged. -/
theorem c2_plot_override_amended (env : Env) (ns : NodeSpec) :
    (∀ u, (workflow_from_spec env true ns).1 = Except.ok u →
        u.params.lookup "plot_reports" = some (PVal.pb false)) ∧
    (ns.parameters = none → (workflow_from_spec env true ns).2 = ns) ∧
    (∀ ps, ns.parameters = some ps →
        (workflow_from_spec env true ns).2 =
          { ns with parameters := some (setParam ps "plot_reports" (PVal.pb false)) }) := by
  refine ⟨?_, ?_, ?_⟩
  · intro u hu
    rcases hns : ns.name with _ | nm
    · rw [wfs_fst_none env true ns hns] at hu
      exact absurd hu (by simp)
    · rw [wfs_fst env true ns nm hns] at hu
      split at hu
      · have h2 := Except.ok.inj hu
        rw [← h2]
        exact lookup_setParam _ _ _
      · exact absurd hu (by simp)
  · intro hpar
    rw [wfs_snd env true ns, hpar]
    rfl
  · intro ps hps
    rw [wfs_snd env true ns, hps]
    rfl

/-- Witness for C2 (amended): the resolved unit for `nsC2` carries the
injected override, and the spec's stored mapping has gained the override
binding. -/
theorem c2_plot_override_amended_witness :
    ({ name := "x", inSlots := ["dwi_file"], outSlots := ["conformed_dwi"],
       params := [("a", PVal.pn 1), ("plot_reports", PVal.pb false)], output_suffix := "",
       baseDirectory := none } : ProcUnit).params.lookup "plot_reports" =
        some (PVal.pb false) ∧
    (workflow_from_spec envW true nsC2).2 =
      { nsC2 with parameters := some (setParam [("a", PVal.pn 1)] "plot_reports" (PVal.pb false)) } :=
  ⟨(c2_plot_override_amended envW nsC2).1 _ rfl,
   (c2_plot_override_amended envW nsC2).2.2 [("a", PVal.pn 1)] rfl⟩

/-- C4 counterexample: building the spec whose two nodes name each other as
`input` succeeds, yet the returned pipeline's connection graph contains the
directed cycle n1 to n2 to n1 — the builder never checks for cycles, so a
returned Pipeline need not be a DAG. -/
theorem c4_cycle_counterexample :
    init_dwi_recon_workflow envC4 "o" "r" false specC4 = Except.ok pC4 ∧ HasCycle pC4 := by
  constructor
  · decide
  · refine ⟨"n1", ["n2"], ?_⟩
    refine List.Chain.cons ⟨cycEdge12, by decide, rfl, rfl⟩ ?_
    refine List.Chain.cons ⟨cycEdge21, by decide, rfl, rfl⟩ ?_
    exact List.Chain.nil

/-- C8 counterexample: running the sink-attachment pass a second time over an
already-finalized pipeline does not return the same pipeline — the strict-prefix
sink's `source_file` slot is already connected, so the duplicate-destination
guard of `workflow.connect` raises instead. -/
theorem c8_idempotence_counterexample :
    sinkPass "o" "r" ["ds_x"] pC8 = Except.ok pC8' ∧
    sinkPass "o" "r" ["ds_x"] pC8' = Except.error BuildErr.duplicateConnection := by
  constructor
  · decide
  · decide

/-- C3 counterexample: a NodeSpec with an unrecognized `software` value and an
internal action resolves successfully (the dispatch falls through to the
internal qsiprep backend), instead of failing with the unknown-node error. -/
theorem c3_unknown_software_counterexample :
    resolveNode envW false nsC3 =
      Except.ok { name := "x", inSlots := ["dwi_file"], outSlots := ["conformed_dwi"],
                  params := [], output_suffix := "", baseDirectory := none } ∧
    resolveNode envW false nsC3 ≠ Except.error BuildErr.unknownNode :=
  ⟨rfl, by decide⟩

/-- C3 (amended): resolution fails with the unknown-node error exactly for the
NodeSpecs whose `(software, action)` pair matches no registered builder under
the dispatch in which every unrecognized `software` value falls back to the
internal backend's action set (so an unrecognized software with an internal
action succeeds), it fails with the no-name error exactly when `name` is
missing or empty, and it succeeds in all remaining cases. -/
theorem c3_resolution_failure_amended (env : Env) (skip : Bool) (ns : NodeSpec) :
    (resolveNode env skip ns = Except.error BuildErr.noName ↔
      (ns.name = none ∨ ns.name = some "")) ∧
    (resolveNode env skip ns = Except.error BuildErr.unknownNode ↔
      ((∃ nm, ns.name = some nm ∧ nm ≠ "") ∧
        builderExists (ns.software.getD "qsiprep") ns.action = false)) ∧
    ((∃ u, resolveNode env skip ns = Except.ok u) ↔
      ((∃ nm, ns.name = some nm ∧ nm ≠ "") ∧
        builderExists (ns.software.getD "qsiprep") ns.action = true)) := by
  rcases hns : ns.name with _ | nm
  · have hr : resolveNode env skip ns = Except.error BuildErr.noName := by
      unfold resolveNode
      rw [hns]
    rw [hr]
    refine ⟨by simp, ?_, ?_⟩
    · simp
    · constructor
      · rintro ⟨u, hu⟩
        exact absurd hu (by simp)
      · rintro ⟨⟨nm, hnm, _⟩, _⟩
        cases hnm
  · by_cases hnm : nm = ""
    · subst hnm
      have hr : resolveNode env skip ns = Except.error BuildErr.noName := by
        unfold resolveNode
        rw [hns]
        rfl
      rw [hr]
      refine ⟨by simp, ?_, ?_⟩
      · constructor
        · intro h
          exact absurd h (by simp)
        · rintro ⟨⟨nm', hnm', hne⟩, _⟩
          rw [Option.some.injEq] at hnm'
          exact absurd hnm'.symm hne
      · constructor
        · rintro ⟨u, hu⟩
          exact absurd hu (by simp)
        · rintro ⟨⟨nm', hnm', hne⟩, _⟩
          rw [Option.some.injEq] at hnm'
          exact absurd hnm'.symm hne
    · have hr : resolveNode env skip ns = (workflow_from_spec env skip ns).1 := by
        unfold resolveNode
        rw [hns]
        show (if (nm == "") = true then Except.error BuildErr.noName
              else (workflow_from_spec env skip ns).1) = _
        rw [if_neg (by simp [hnm])]
      rw [hr, wfs_fst env skip ns nm hns]
      rcases hb : builderExists (ns.software.getD "qsiprep") ns.action
      · rw [if_neg (by simp [hb])]
        refine ⟨by simp [hnm], ?_, ?_⟩
        · constructor
          · intro _
            exact ⟨⟨nm, rfl, hnm⟩, rfl⟩
          · intro _
            rfl
        · constructor
          · rintro ⟨u, hu⟩
            exact absurd hu (by simp)
          · rintro ⟨_, hbt⟩
            cases hbt
      · rw [if_pos (by simp [hb])]
        refine ⟨by simp [hnm], ?_, ?_⟩
        · constructor
          · intro h
            exact absurd h (by simp)
          · rintro ⟨_, hbf⟩
            cases hbf
        · constructor
          · intro _
            exact ⟨⟨nm, rfl, hnm⟩, rfl⟩
          · intro _
            exact ⟨_, rfl⟩

theorem resolveNode_eq_wfs (env : Env) (skip : Bool) (ns : NodeSpec) (nm : String)
    (hns : ns.name = some nm) (hnm : nm ≠ "") :
    resolveNode env skip ns = (workflow_from_spec env skip ns).1 := by
  unfold resolveNode
  rw [hns]
  show (if (nm == "") = true then Except.error BuildErr.noName
        else (workflow_from_spec env skip ns).1) = _
  rw [if_neg (by simp [hnm])]

theorem resolveNode_cases (env : Env) (skip : Bool) (ns : NodeSpec) :
    (∃ u, resolveNode env skip ns = Except.ok u) ∨
    resolveNode env skip ns = Except.error BuildErr.noName ∨
    resolveNode env skip ns = Except.error BuildErr.unknownNode := by
  rcases hns : ns.name with _ | nm
  · right; left
    unfold resolveNode
    rw [hns]
  · by_cases hnm : nm = ""
    · right; left
      unfold resolveNode
      rw [hns]
      subst hnm
      rfl
    · rw [resolveNode_eq_wfs env skip ns nm hns hnm, wfs_fst env skip ns nm hns]
      split
      · left; exact ⟨_, rfl⟩
      · right; right; rfl

theorem resolveNode_ne_dup (env : Env) (skip : Bool) (ns : NodeSpec) :
    resolveNode env skip ns ≠ Except.error BuildErr.duplicateNodeName := by
  rcases resolveNode_cases env skip ns with ⟨u, hu⟩ | h | h
  · rw [hu]; simp
  · rw [h]; simp
  · rw [h]; simp

theorem buildPass1_cons_err (env : Env) (skip : Bool) (ns : NodeSpec) (rest : List NodeSpec)
    (e : BuildErr) (h : resolveNode env skip ns = Except.error e) :
    buildPass1 env skip (ns :: rest) = Except.error e := by
  unfold buildPass1
  rw [h]

theorem buildPass1_cons_ok1 (env : Env) (skip : Bool) (ns : NodeSpec) (rest : List NodeSpec)
    (u : ProcUnit) (e : BuildErr) (h : resolveNode env skip ns = Except.ok u)
    (hrest : buildPass1 env skip rest = Except.error e) :
    buildPass1 env skip (ns :: rest) = Except.error e := by
  unfold buildPass1
  rw [h]
  show (match buildPass1 env skip rest with
        | Except.error e => Except.error e
        | Except.ok us => Except.ok (u :: us)) = _
  rw [hrest]

theorem buildPass1_cons_ok (env : Env) (skip : Bool) (ns : NodeSpec) (rest : List NodeSpec)
    (u : ProcUnit) (us : List ProcUnit) (h : resolveNode env skip ns = Except.ok u)
    (hrest : buildPass1 env skip rest = Except.ok us) :
    buildPass1 env skip (ns :: rest) = Except.ok (u :: us) := by
  unfold buildPass1
  rw [h]
  show (match buildPass1 env skip rest with
        | Except.error e => Except.error e
        | Except.ok us => Except.ok (u :: us)) = _
  rw [hrest]

theorem buildPass1_ne_dup (env : Env) (skip : Bool) (l : List NodeSpec) :
    buildPass1 env skip l ≠ Except.error BuildErr.duplicateNodeName := by
  induction l with
  | nil => simp [buildPass1]
  | cons ns rest ih =>
    cases hres : resolveNode env skip ns with
    | error e =>
      rw [buildPass1_cons_err env skip ns rest e hres]
      intro h
      have he := Except.error.inj h
      rw [he] at hres
      exact resolveNode_ne_dup env skip ns hres
    | ok u =>
      cases hrest : buildPass1 env skip rest with
      | error e =>
        rw [buildPass1_cons_ok1 env skip ns rest u e hres hrest]
        intro h
        have he := Except.error.inj h
        rw [he] at hrest
        exact ih hrest
      | ok us =>
        rw [buildPass1_cons_ok env skip ns rest u us hres hrest]
        simp

theorem addConns_err (conns new : List Conn) (e : BuildErr)
    (h : addConns conns new = Except.error e) : e = BuildErr.duplicateConnection := by
  induction new generalizing conns with
  | nil => simp [addConns] at h
  | cons c rest ih =>
    unfold addConns at h
    split at h
    · exact (Except.error.inj h).symm
    · exact ih _ h

theorem routeUpstream_noUp (env : Env) (units : List ProcUnit) (nm upstreamName : String)
    (hU : lookupUnit units upstreamName = none) :
    routeUpstream env units nm upstreamName = Except.error BuildErr.unresolvedUpstream := by
  unfold routeUpstream
  rw [hU]

theorem routeUpstream_noMe (env : Env) (units : List ProcUnit) (nm upstreamName : String)
    (up : ProcUnit) (hU : lookupUnit units upstreamName = some up)
    (hme : lookupUnit units nm = none) :
    routeUpstream env units nm upstreamName = Except.error BuildErr.unresolvedUpstream := by
  unfold routeUpstream
  rw [hU, hme]

theorem routeUpstream_ok (env : Env) (units : List ProcUnit) (nm upstreamName : String)
    (up me : ProcUnit) (hU : lookupUnit units upstreamName = some up)
    (hme : lookupUnit units nm = some me)
    (hchk : _check_repeats (units.map (fun u => u.name)) = true) :
    routeUpstream env units nm upstreamName =
      Except.ok (upstreamCaseConns env nm upstreamName up me) := by
  unfold routeUpstream
  rw [hU, hme]
  show (if _check_repeats (units.map (fun u => u.name)) = true then
          Except.ok (upstreamCaseConns env nm upstreamName up me)
        else Except.error BuildErr.duplicateNodeName) = _
  rw [if_pos hchk]

theorem routeUpstream_chkfail (env : Env) (units : List ProcUnit) (nm upstreamName : String)
    (up me : ProcUnit) (hU : lookupUnit units upstreamName = some up)
    (hme : lookupUnit units nm = some me)
    (hchk : _check_repeats (units.map (fun u => u.name)) = false) :
    routeUpstream env units nm upstreamName = Except.error BuildErr.duplicateNodeName := by
  unfold routeUpstream
  rw [hU, hme]
  show (if _check_repeats (units.map (fun u => u.name)) = true then
          Except.ok (upstreamCaseConns env nm upstreamName up me)
        else Except.error BuildErr.duplicateNodeName) = _
  rw [if_neg (by simp [hchk])]

theorem routeNode_none (env : Env) (units : List ProcUnit) (ns : NodeSpec)
    (hns : ns.name = none) : routeNode env units ns = Except.error BuildErr.noName := by
  unfold routeNode
  rw [hns]

theorem routeNode_sentinel (env : Env) (units : List ProcUnit) (ns : NodeSpec) (nm : String)
    (hns : ns.name = some nm) (hget : ns.input.getD "qsiprep" = "qsiprep") :
    routeNode env units ns = Except.ok (qsiprepSentinelConns env nm) := by
  unfold routeNode
  rw [hns]
  show (if (ns.input.getD "qsiprep" == "qsiprep") = true then
          Except.ok (qsiprepSentinelConns env nm)
        else routeUpstream env units nm (ns.input.getD "qsiprep")) = _
  rw [if_pos (by simp [hget])]

theorem routeNode_up (env : Env) (units : List ProcUnit) (ns : NodeSpec) (nm : String)
    (hns : ns.name = some nm) (hget : ns.input.getD "qsiprep" ≠ "qsiprep") :
    routeNode env units ns = routeUpstream env units nm (ns.input.getD "qsiprep") := by
  unfold routeNode
  rw [hns]
  show (if (ns.input.getD "qsiprep" == "qsiprep") = true then
          Except.ok (qsiprepSentinelConns env nm)
        else routeUpstream env units nm (ns.input.getD "qsiprep")) = _
  rw [if_neg (by simp [hget])]

theorem routeUpstream_dup_imp (env : Env) (units : List ProcUnit) (nm upstreamName : String)
    (h : routeUpstream env units nm upstreamName = Except.error BuildErr.duplicateNodeName) :
    _check_repeats (units.map (fun u => u.name)) = false := by
  cases hU : lookupUnit units upstreamName with
  | none =>
    rw [routeUpstream_noUp env units nm upstreamName hU] at h
    cases Except.error.inj h
  | some up =>
    cases hme : lookupUnit units nm with
    | none =>
      rw [routeUpstream_noMe env units nm upstreamName up hU hme] at h
      cases Except.error.inj h
    | some me =>
      cases hchk : _check_repeats (units.map (fun u => u.name))
      · rfl
      · rw [routeUpstream_ok env units nm upstreamName up me hU hme hchk] at h
        exact absurd h (by simp)

theorem routeNode_ne_dup (env : Env) (units : List ProcUnit) (ns : NodeSpec)
    (hchk : _check_repeats (units.map (fun u => u.name)) = true) :
    routeNode env units ns ≠ Except.error BuildErr.duplicateNodeName := by
  intro h
  rcases hns : ns.name with _ | nm
  · rw [routeNode_none env units ns hns] at h
    cases Except.error.inj h
  · by_cases hget : ns.input.getD "qsiprep" = "qsiprep"
    · rw [routeNode_sentinel env units ns nm hns hget] at h
      exact absurd h (by simp)
    · rw [routeNode_up env units ns nm hns hget] at h
      rw [routeUpstream_dup_imp env units nm _ h] at hchk
      cases hchk

theorem buildPass2_cons_routeErr (env : Env) (units : List ProcUnit) (ns : NodeSpec)
    (rest : List NodeSpec) (acc : List Conn) (e : BuildErr)
    (h : routeNode env units ns = Except.error e) :
    buildPass2 env units (ns :: rest) acc = Except.error e := by
  unfold buildPass2
  rw [h]

theorem buildPass2_cons_addErr (env : Env) (units : List ProcUnit) (ns : NodeSpec)
    (rest : List NodeSpec) (acc new : List Conn) (e : BuildErr)
    (hr : routeNode env units ns = Except.ok new)
    (ha : addConns acc new = Except.error e) :
    buildPass2 env units (ns :: rest) acc = Except.error e := by
  unfold buildPass2
  rw [hr]
  show (match addConns acc new with
        | Except.error e => Except.error e
        | Except.ok conns' => buildPass2 env units rest conns') = _
  rw [ha]

theorem buildPass2_cons_ok (env : Env) (units : List ProcUnit) (ns : NodeSpec)
    (rest : List NodeSpec) (acc new conns' : List Conn)
    (hr : routeNode env units ns = Except.ok new)
    (ha : addConns acc new = Except.ok conns') :
    buildPass2 env units (ns :: rest) acc = buildPass2 env units rest conns' := by
  conv_lhs => unfold buildPass2
  rw [hr]
  show (match addConns acc new with
        | Except.error e => Except.error e
        | Except.ok conns' => buildPass2 env units rest conns') = _
  rw [ha]

theorem buildPass2_ne_dup (env : Env) (units : List ProcUnit) (l : List NodeSpec)
    (acc : List Conn)
    (hchk : _check_repeats (units.map (fun u => u.name)) = true) :
    buildPass2 env units l acc ≠ Except.error BuildErr.duplicateNodeName := by
  induction l generalizing acc with
  | nil => simp [buildPass2]
  | cons ns rest ih =>
    cases hroute : routeNode env units ns with
    | error e =>
      rw [buildPass2_cons_routeErr env units ns rest acc e hroute]
      intro h
      have he := Except.error.inj h
      rw [he] at hroute
      exact routeNode_ne_dup env units ns hchk hroute
    | ok new =>
      cases hadd : addConns acc new with
      | error e =>
        rw [buildPass2_cons_addErr env units ns rest acc new e hroute hadd]
        intro h
        have he := Except.error.inj h
        rw [he] at hadd
        have := addConns_err acc new _ hadd
        cases this
      | ok conns' =>
        rw [buildPass2_cons_ok env units ns rest acc new conns' hroute hadd]
        exact ih conns'

theorem sinkStep_notSink (outD repD : String) (p : Pipeline) (n : String)
    (hds : strStartsWith (nodeSuffix n) "ds" = false) :
    sinkStep outD repD p n = Except.ok p := by
  unfold sinkStep
  rw [if_neg (by simp [hds])]

theorem sinkStep_isSink (outD repD : String) (p : Pipeline) (n : String)
    (hds : strStartsWith (nodeSuffix n) "ds" = true) :
    sinkStep outD repD p n = sinkStepSink outD repD p n := by
  unfold sinkStep
  rw [if_pos hds]

theorem sinkStepSink_nonStrict (outD repD : String) (p : Pipeline) (n : String)
    (hnds : strStartsWith (nodeSuffix n) "ds_" = false) :
    sinkStepSink outD repD p n =
      Except.ok { units := sinkUnits p n (sinkBaseDir outD repD n), conns := p.conns } := by
  unfold sinkStepSink
  rw [if_neg (by simp [hnds])]

theorem sinkStepSink_strict_err (outD repD : String) (p : Pipeline) (n : String) (e : BuildErr)
    (hnds : strStartsWith (nodeSuffix n) "ds_" = true)
    (ha : addConns p.conns [sinkConn n] = Except.error e) :
    sinkStepSink outD repD p n = Except.error e := by
  unfold sinkStepSink
  rw [if_pos hnds]
  show (match addConns p.conns [sinkConn n] with
        | Except.error e => Except.error e
        | Except.ok conns' =>
          Except.ok (Pipeline.mk (sinkUnits p n (sinkBaseDir outD repD n)) conns')) = _
  rw [ha]

theorem sinkStepSink_strict_ok (outD repD : String) (p : Pipeline) (n : String)
    (conns' : List Conn)
    (hnds : strStartsWith (nodeSuffix n) "ds_" = true)
    (ha : addConns p.conns [sinkConn n] = Except.ok conns') :
    sinkStepSink outD repD p n =
      Except.ok { units := sinkUnits p n (sinkBaseDir outD repD n), conns := conns' } := by
  unfold sinkStepSink
  rw [if_pos hnds]
  show (match addConns p.conns [sinkConn n] with
        | Except.error e => Except.error e
        | Except.ok conns' =>
          Except.ok (Pipeline.mk (sinkUnits p n (sinkBaseDir outD repD n)) conns')) = _
  rw [ha]

theorem sinkStep_err (outD repD : String) (p : Pipeline) (n : String) (e : BuildErr)
    (h : sinkStep outD repD p n = Except.error e) : e = BuildErr.duplicateConnection := by
  by_cases hds : strStartsWith (nodeSuffix n) "ds" = true
  · rw [sinkStep_isSink outD repD p n hds] at h
    by_cases hnds : strStartsWith (nodeSuffix n) "ds_" = true
    · cases ha : addConns p.conns [sinkConn n] with
      | error e' =>
        rw [sinkStepSink_strict_err outD repD p n e' hnds ha] at h
        rw [← Except.error.inj h]
        exact addConns_err _ _ _ ha
      | ok conns' =>
        rw [sinkStepSink_strict_ok outD repD p n conns' hnds ha] at h
        exact absurd h (by simp)
    · have hnds' : strStartsWith (nodeSuffix n) "ds_" = false := by
        cases hv : strStartsWith (nodeSuffix n) "ds_"
        · rfl
        · exact absurd hv hnds
      rw [sinkStepSink_nonStrict outD repD p n hnds'] at h
      exact absurd h (by simp)
  · have hds' : strStartsWith (nodeSuffix n) "ds" = false := by
      cases hv : strStartsWith (nodeSuffix n) "ds"
      · rfl
      · exact absurd hv hds
    rw [sinkStep_notSink outD repD p n hds'] at h
    exact absurd h (by simp)

theorem sinkPass_cons_err (outD repD : String) (n : String) (rest : List String)
    (p : Pipeline) (e : BuildErr) (h : sinkStep outD repD p n = Except.error e) :
    sinkPass outD repD (n :: rest) p = Except.error e := by
  unfold sinkPass
  rw [h]

theorem sinkPass_cons_ok (outD repD : String) (n : String) (rest : List String)
    (p p' : Pipeline) (h : sinkStep outD repD p n = Except.ok p') :
    sinkPass outD repD (n :: rest) p = sinkPass outD repD rest p' := by
  conv_lhs => unfold sinkPass
  rw [h]

theorem sinkPass_ne_dup (outD repD : String) (names : List String) (p : Pipeline) :
    sinkPass outD repD names p ≠ Except.error BuildErr.duplicateNodeName := by
  induction names generalizing p with
  | nil => simp [sinkPass]
  | cons n rest ih =>
    cases hstep : sinkStep outD repD p n with
    | error e =>
      rw [sinkPass_cons_err outD repD n rest p e hstep]
      intro h
      have he := Except.error.inj h
      rw [he] at hstep
      have := sinkStep_err outD repD p n _ hstep
      cases this
    | ok p' =>
      rw [sinkPass_cons_ok outD repD n rest p p' hstep]
      exact ih p'

theorem build_p1err (env : Env) (outD repD : String) (skip : Bool) (spec : WorkflowSpec)
    (e : BuildErr) (h : buildPass1 env skip spec.nodes = Except.error e) :
    init_dwi_recon_workflow env outD repD skip spec = Except.error e := by
  unfold init_dwi_recon_workflow
  rw [h]

theorem build_chkfail (env : Env) (outD repD : String) (skip : Bool) (spec : WorkflowSpec)
    (units : List ProcUnit) (hp1 : buildPass1 env skip spec.nodes = Except.ok units)
    (hchk : _check_repeats (units.map (fun u => u.name)) = false) :
    init_dwi_recon_workflow env outD repD skip spec =
      Except.error BuildErr.duplicateNodeName := by
  unfold init_dwi_recon_workflow
  rw [hp1]
  show (if _check_repeats (units.map (fun u => u.name)) = true then
          (match buildPass2 env units spec.nodes [] with
           | Except.error e => Except.error e
           | Except.ok conns =>
             sinkPass outD repD (units.map (fun u => u.name)) (Pipeline.mk units conns))
        else Except.error BuildErr.duplicateNodeName) = _
  rw [if_neg (by simp [hchk])]

theorem build_p2err (env : Env) (outD repD : String) (skip : Bool) (spec : WorkflowSpec)
    (units : List ProcUnit) (e : BuildErr)
    (hp1 : buildPass1 env skip spec.nodes = Except.ok units)
    (hchk : _check_repeats (units.map (fun u => u.name)) = true)
    (hp2 : buildPass2 env units spec.nodes [] = Except.error e) :
    init_dwi_recon_workflow env outD repD skip spec = Except.error e := by
  unfold init_dwi_recon_workflow
  rw [hp1]
  show (if _check_repeats (units.map (fun u => u.name)) = true then
          (match buildPass2 env units spec.nodes [] with
           | Except.error e => Except.error e
           | Except.ok conns =>
             sinkPass outD repD (units.map (fun u => u.name)) (Pipeline.mk units conns))
        else Except.error BuildErr.duplicateNodeName) = _
  rw [if_pos hchk, hp2]

theorem build_sink_eq (env : Env) (outD repD : String) (skip : Bool) (spec : WorkflowSpec)
    (units : List ProcUnit) (conns : List Conn)
    (hp1 : buildPass1 env skip spec.nodes = Except.ok units)
    (hchk : _check_repeats (units.map (fun u => u.name)) = true)
    (hp2 : buildPass2 env units spec.nodes [] = Except.ok conns) :
    init_dwi_recon_workflow env outD repD skip spec =
      sinkPass outD repD (units.map (fun u => u.name)) (Pipeline.mk units conns) := by
  unfold init_dwi_recon_workflow
  rw [hp1]
  show (if _check_repeats (units.map (fun u => u.name)) = true then
          (match buildPass2 env units spec.nodes [] with
           | Except.error e => Except.error e
           | Except.ok conns =>
             sinkPass outD repD (units.map (fun u => u.name)) (Pipeline.mk units conns))
        else Except.error BuildErr.duplicateNodeName) = _
  rw [if_pos hchk, hp2]

/-- C5: build fails with the duplicate-node-name error exactly when Pass 1
resolves every node successfully and the run-once `_check_repeats` count
comparison over the full inserted name list fails; in particular the detection
runs once after all Pass-1 insertions are complete (a resolution failure
anywhere in the list preempts it), never incrementally during insertion. -/
theorem c5_duplicate_name_detection (env : Env) (outD repD : String) (skip : Bool)
    (spec : WorkflowSpec) :
    init_dwi_recon_workflow env outD repD skip spec = Except.error BuildErr.duplicateNodeName ↔
    (∃ units, buildPass1 env skip spec.nodes = Except.ok units ∧
       _check_repeats (units.map (fun u => u.name)) = false) := by
  cases hp1 : buildPass1 env skip spec.nodes with
  | error e =>
    rw [build_p1err env outD repD skip spec e hp1]
    constructor
    · intro h
      have he := Except.error.inj h
      rw [he] at hp1
      exact absurd hp1 (buildPass1_ne_dup env skip spec.nodes)
    · rintro ⟨units, hu, _⟩
      exact absurd hu (by simp)
  | ok units =>
    cases hchk : _check_repeats (units.map (fun u => u.name)) with
    | false =>
      rw [build_chkfail env outD repD skip spec units hp1 hchk]
      exact ⟨fun _ => ⟨units, rfl, hchk⟩, fun _ => rfl⟩
    | true =>
      constructor
      · intro h
        cases hp2 : buildPass2 env units spec.nodes [] with
        | error e =>
          rw [build_p2err env outD repD skip spec units e hp1 hchk hp2] at h
          have he := Except.error.inj h
          rw [he] at hp2
          exact absurd hp2 (buildPass2_ne_dup env units spec.nodes [] hchk)
        | ok conns =>
          rw [build_sink_eq env outD repD skip spec units conns hp1 hchk hp2] at h
          exact absurd h (sinkPass_ne_dup outD repD _ _)
      · rintro ⟨units', hu, hc⟩
        have huu : units = units' := Except.ok.inj hu
        rw [← huu] at hc
        rw [hchk] at hc
        cases hc

theorem mem_connect_from_upstream (up me : ProcUnit) (s : String) :
    s ∈ connect_from_upstream up me ↔ s ∈ up.outSlots ∧ s ∈ me.inSlots := by
  simp [connect_from_upstream, List.mem_filter, List.mem_dedup]

theorem mem_connect_from_qsiprep (env : Env) (up me : ProcUnit) (f : String) :
    f ∈ connect_from_qsiprep env up me ↔
      f ∈ env.default_input_set ∧ ¬(f ∈ up.outSlots ∧ f ∈ me.inSlots) := by
  simp [connect_from_qsiprep, List.mem_filter, mem_connect_from_upstream]
  tauto

theorem mem_upstreamCaseConns (env : Env) (nm up : String) (U me : ProcUnit) (c : Conn) :
    c ∈ upstreamCaseConns env nm up U me ↔
      ((∃ s, s ∈ U.outSlots ∧ s ∈ me.inSlots ∧
          c = { src := CSource.unit up, srcSlot := "outputnode." ++ s, dst := nm,
                dstSlot := "inputnode." ++ s }) ∨
       (∃ f, f ∈ env.default_input_set ∧ ¬(f ∈ U.outSlots ∧ f ∈ me.inSlots) ∧
          c = { src := CSource.global, srcSlot := f, dst := nm,
                dstSlot := "inputnode." ++ f })) := by
  unfold upstreamCaseConns as_connections
  rw [List.mem_append]
  simp only [List.map_map, List.mem_map, Function.comp]
  constructor
  · rintro (⟨f, hf, rfl⟩ | ⟨s, hs, rfl⟩)
    · right
      rcases (mem_connect_from_qsiprep env U me f).mp hf with ⟨h1, h2⟩
      exact ⟨f, h1, h2, rfl⟩
    · left
      rcases (mem_connect_from_upstream U me s).mp hs with ⟨h1, h2⟩
      exact ⟨s, h1, h2, rfl⟩
  · rintro (⟨s, h1, h2, rfl⟩ | ⟨f, h1, h2, rfl⟩)
    · right
      exact ⟨s, (mem_connect_from_upstream U me s).mpr ⟨h1, h2⟩, rfl⟩
    · left
      exact ⟨f, (mem_connect_from_qsiprep env U me f).mpr ⟨h1, h2⟩, rfl⟩

/-- C1: for a NodeSpec whose `input` names an upstream node present among the
units, the router produces exactly the upstream-case connections, whose
membership is characterized as: the slots in available-intersect-needed wired
from the upstream unit's outputs, plus every slot of `default_input_set` minus
that intersection wired from the global source (not filtered by the
destination's needed set); and a slot in both the upstream outputs and the
destination inputs is wired from upstream only, never also from the global
source (the two connection sets are disjoint). -/
theorem c1_upstream_routing (env : Env) (units : List ProcUnit) (ns : NodeSpec)
    (nm up : String) (U me : ProcUnit)
    (hname : ns.name = some nm)
    (hinput : ns.input = some up)
    (hup : up ≠ "qsiprep")
    (hU : lookupUnit units up = some U)
    (hme : lookupUnit units nm = some me)
    (hchk : _check_repeats (units.map (fun u => u.name)) = true) :
    routeNode env units ns = Except.ok (upstreamCaseConns env nm up U me) ∧
    (∀ c, c ∈ upstreamCaseConns env nm up U me ↔
      ((∃ s, s ∈ U.outSlots ∧ s ∈ me.inSlots ∧
          c = { src := CSource.unit up, srcSlot := "outputnode." ++ s, dst := nm,
                dstSlot := "inputnode." ++ s }) ∨
       (∃ f, f ∈ env.default_input_set ∧ ¬(f ∈ U.outSlots ∧ f ∈ me.inSlots) ∧
          c = { src := CSource.global, srcSlot := f, dst := nm,
                dstSlot := "inputnode." ++ f }))) ∧
    (∀ s, s ∈ U.outSlots → s ∈ me.inSlots →
      ({ src := CSource.unit up, srcSlot := "outputnode." ++ s, dst := nm,
         dstSlot := "inputnode." ++ s } : Conn) ∈ upstreamCaseConns env nm up U me ∧
      ({ src := CSource.global, srcSlot := s, dst := nm,
         dstSlot := "inputnode." ++ s } : Conn) ∉ upstreamCaseConns env nm up U me) := by
  have hget : ns.input.getD "qsiprep" = up := by rw [hinput]; rfl
  refine ⟨?_, mem_upstreamCaseConns env nm up U me, ?_⟩
  · rw [routeNode_up env units ns nm hname (by rw [hget]; exact hup), hget]
    exact routeUpstream_ok env units nm up U me hU hme hchk
  · intro s hs1 hs2
    constructor
    · exact (mem_upstreamCaseConns env nm up U me _).mpr (Or.inl ⟨s, hs1, hs2, rfl⟩)
    · intro hmem
      rcases (mem_upstreamCaseConns env nm up U me _).mp hmem with
        ⟨s', _, _, heq⟩ | ⟨f, _, h2, heq⟩
      · have := congrArg Conn.src heq
        simp at this
      · have hsf : s = f := congrArg Conn.srcSlot heq
        rw [← hsf] at h2
        exact h2 ⟨hs1, hs2⟩

theorem c1_upstream_routing_witness :
    routeNode envW unitsC1 nsC1 = Except.ok (upstreamCaseConns envW "me" "up" upC1 meC1) ∧
    (∀ c, c ∈ upstreamCaseConns envW "me" "up" upC1 meC1 ↔
      ((∃ s, s ∈ upC1.outSlots ∧ s ∈ meC1.inSlots ∧
          c = { src := CSource.unit "up", srcSlot := "outputnode." ++ s, dst := "me",
                dstSlot := "inputnode." ++ s }) ∨
       (∃ f, f ∈ envW.default_input_set ∧ ¬(f ∈ upC1.outSlots ∧ f ∈ meC1.inSlots) ∧
          c = { src := CSource.global, srcSlot := f, dst := "me",
                dstSlot := "inputnode." ++ f }))) ∧
    (∀ s, s ∈ upC1.outSlots → s ∈ meC1.inSlots →
      ({ src := CSource.unit "up", srcSlot := "outputnode." ++ s, dst := "me",
         dstSlot := "inputnode." ++ s } : Conn) ∈ upstreamCaseConns envW "me" "up" upC1 meC1 ∧
      ({ src := CSource.global, srcSlot := s, dst := "me",
         dstSlot := "inputnode." ++ s } : Conn) ∉ upstreamCaseConns envW "me" "up" upC1 meC1) :=
  c1_upstream_routing envW unitsC1 nsC1 "me" "up" upC1 meC1 rfl rfl (by decide) rfl rfl rfl

theorem strict_implies_ds (s : String) (h : strStartsWith s "ds_" = true) :
    strStartsWith s "ds" = true := by
  unfold strStartsWith at h ⊢
  rw [List.isPrefixOf_iff_prefix] at h ⊢
  exact List.IsPrefix.trans (by decide) h

theorem strictConns_cons (n : String) (rest : List String) :
    strictConns (n :: rest) =
      (if strStartsWith (nodeSuffix n) "ds_" = true then [sinkConn n] else []) ++
        strictConns rest := by
  unfold strictConns
  rw [List.filter_cons]
  by_cases h : strStartsWith (nodeSuffix n) "ds_" = true
  · rw [if_pos h, if_pos h]
    rfl
  · rw [if_neg h, if_neg h]
    rfl

theorem sinkUpd_name (outD repD : String) (names : List String) (u : ProcUnit) :
    (sinkUpd outD repD names u).name = u.name := by
  unfold sinkUpd
  split <;> rfl

theorem sinkUpd_nil (outD repD : String) (u : ProcUnit) :
    sinkUpd outD repD [] u = u := by
  unfold sinkUpd
  rw [if_neg (by simp)]

theorem sinkUpd_cons (outD repD n : String) (rest : List String) (u : ProcUnit) :
    sinkUpd outD repD (n :: rest) u =
      sinkUpd outD repD rest
        (if strStartsWith (nodeSuffix n) "ds" = true then
          (if u.name == n then { u with baseDirectory := some (sinkBaseDir outD repD n) }
           else u)
         else u) := by
  by_cases hn : u.name = n
  · subst hn
    by_cases hds : strStartsWith (nodeSuffix u.name) "ds" = true
    · rw [if_pos hds, if_pos (beq_self_eq_true u.name)]
      by_cases hcr : rest.contains u.name = true
      · unfold sinkUpd
        simp [List.contains_cons, hds, hcr]
      · have hcr' : rest.contains u.name = false := by
          cases hv : rest.contains u.name
          · rfl
          · exact absurd hv hcr
        unfold sinkUpd
        simp [List.contains_cons, hds, hcr']
    · have hds' : strStartsWith (nodeSuffix u.name) "ds" = false := by
        cases hv : strStartsWith (nodeSuffix u.name) "ds"
        · rfl
        · exact absurd hv hds
      rw [if_neg (by simp [hds'])]
      unfold sinkUpd
      simp [hds']
  · have hbn : (u.name == n) = false := beq_eq_false_iff_ne.mpr hn
    have harm : (if strStartsWith (nodeSuffix n) "ds" = true then
          (if u.name == n then { u with baseDirectory := some (sinkBaseDir outD repD n) }
           else u)
         else u) = u := by
      by_cases hds : strStartsWith (nodeSuffix n) "ds" = true
      · rw [if_pos hds, if_neg (by simp [hbn])]
      · rw [if_neg hds]
    rw [harm]
    unfold sinkUpd
    simp [List.contains_cons, hbn, hn]

theorem sinkStep_ok_cases (outD repD : String) (p p' : Pipeline) (n : String)
    (h : sinkStep outD repD p n = Except.ok p') :
    p'.units = p.units.map (fun u =>
      if strStartsWith (nodeSuffix n) "ds" = true then
        (if u.name == n then { u with baseDirectory := some (sinkBaseDir outD repD n) }
         else u)
      else u) ∧
    p'.conns = p.conns ++
      (if strStartsWith (nodeSuffix n) "ds_" = true then [sinkConn n] else []) := by
  by_cases hds : strStartsWith (nodeSuffix n) "ds" = true
  · rw [sinkStep_isSink outD repD p n hds] at h
    by_cases hnds : strStartsWith (nodeSuffix n) "ds_" = true
    · cases ha : addConns p.conns [sinkConn n] with
      | error e =>
        rw [sinkStepSink_strict_err outD repD p n e hnds ha] at h
        exact absurd h (by simp)
      | ok conns' =>
        rw [sinkStepSink_strict_ok outD repD p n conns' hnds ha] at h
        cases Except.ok.inj h
        refine ⟨?_, ?_⟩
        · simp only [sinkUnits]
          exact List.map_congr_left (fun u _ => by rw [if_pos hds])
        · rw [if_pos hnds]
          exact addConns_ok p.conns [sinkConn n] conns' ha
    · have hnds' : strStartsWith (nodeSuffix n) "ds_" = false := by
        cases hv : strStartsWith (nodeSuffix n) "ds_"
        · rfl
        · exact absurd hv hnds
      rw [sinkStepSink_nonStrict outD repD p n hnds'] at h
      cases Except.ok.inj h
      refine ⟨?_, ?_⟩
      · simp only [sinkUnits]
        exact List.map_congr_left (fun u _ => by rw [if_pos hds])
      · rw [if_neg (by simp [hnds'])]
        simp
  · have hds' : strStartsWith (nodeSuffix n) "ds" = false := by
      cases hv : strStartsWith (nodeSuffix n) "ds"
      · rfl
      · exact absurd hv hds
    rw [sinkStep_notSink outD repD p n hds'] at h
    cases Except.ok.inj h
    have hnds' : strStartsWith (nodeSuffix n) "ds_" = false := by
      cases hv : strStartsWith (nodeSuffix n) "ds_"
      · rfl
      · exact absurd (strict_implies_ds _ hv) (by simp [hds'])
    refine ⟨?_, ?_⟩
    · symm
      have hid : ∀ u ∈ p.units, (if strStartsWith (nodeSuffix n) "ds" = true then
          (if u.name == n then { u with baseDirectory := some (sinkBaseDir outD repD n) }
           else u) else u) = u := fun u _ => by rw [if_neg (by simp [hds'])]
      rw [List.map_congr_left hid]
      simp
    · rw [if_neg (by simp [hnds'])]
      simp

theorem sinkPass_ok_closed (outD repD : String) (names : List String) (p out : Pipeline)
    (h : sinkPass outD repD names p = Except.ok out) :
    out.units = p.units.map (sinkUpd outD repD names) ∧
    out.conns = p.conns ++ strictConns names := by
  induction names generalizing p with
  | nil =>
    cases Except.ok.inj (h : Except.ok p = Except.ok out)
    refine ⟨?_, ?_⟩
    · symm
      rw [List.map_congr_left (fun u _ => sinkUpd_nil outD repD u)]
      simp
    · simp [strictConns]
  | cons n rest ih =>
    cases hstep : sinkStep outD repD p n with
    | error e =>
      rw [sinkPass_cons_err outD repD n rest p e hstep] at h
      exact absurd h (by simp)
    | ok p2 =>
      rw [sinkPass_cons_ok outD repD n rest p p2 hstep] at h
      rcases ih p2 h with ⟨hu, hc⟩
      rcases sinkStep_ok_cases outD repD p p2 n hstep with ⟨hu2, hc2⟩
      refine ⟨?_, ?_⟩
      · rw [hu, hu2, List.map_map]
        exact (List.map_congr_left (fun u _ => (sinkUpd_cons outD repD n rest u))).symm
      · rw [hc, hc2, strictConns_cons, List.append_assoc]

theorem mem_strictConns (names : List String) (c : Conn) :
    c ∈ strictConns names ↔
      ∃ n, n ∈ names ∧ strStartsWith (nodeSuffix n) "ds_" = true ∧ c = sinkConn n := by
  unfold strictConns
  rw [List.mem_map]
  constructor
  · rintro ⟨n, hmem, rfl⟩
    rw [List.mem_filter] at hmem
    exact ⟨n, hmem.1, hmem.2, rfl⟩
  · rintro ⟨n, h1, h2, rfl⟩
    exact ⟨n, List.mem_filter.mpr ⟨h1, h2⟩, rfl⟩

/-- C7: over the visited node names of a pipeline, a unit is given a
`base_directory` assignment if and only if its trailing name component starts
with the sink prefix `'ds'`; the assigned class is the reportlets directory
exactly when the trailing component contains the reportlet marker `"report"`
and the primary output directory otherwise; and exactly the nodes whose
trailing component starts with the stricter `'ds_'` prefix get their
`source_file` slot wired from the global source's `dwi_file` field. -/
theorem c7_sink_classification (outD repD : String) (names : List String) (p out : Pipeline)
    (hn : names = p.units.map (fun u => u.name))
    (h : sinkPass outD repD names p = Except.ok out) :
    out.units = p.units.map (fun u =>
      if strStartsWith (nodeSuffix u.name) "ds" = true then
        { u with baseDirectory := some (if strContains (nodeSuffix u.name) "report" = true then repD else outD) }
      else u) ∧
    (∀ c, c ∈ out.conns ↔ (c ∈ p.conns ∨
      ∃ n, n ∈ names ∧ strStartsWith (nodeSuffix n) "ds_" = true ∧ c = sinkConn n)) := by
  rcases sinkPass_ok_closed outD repD names p out h with ⟨hu, hc⟩
  constructor
  · rw [hu]
    apply List.map_congr_left
    intro u humem
    have hmem : u.name ∈ names := by
      rw [hn]
      exact List.mem_map_of_mem _ humem
    simp [sinkUpd, sinkBaseDir, hmem]
  · intro c
    rw [hc, List.mem_append, mem_strictConns]

theorem c7_sink_classification_witness :
    outC7.units = pC7.units.map (fun u =>
      if strStartsWith (nodeSuffix u.name) "ds" = true then
        { u with baseDirectory := some (if strContains (nodeSuffix u.name) "report" = true then "r" else "o") }
      else u) ∧
    (∀ c, c ∈ outC7.conns ↔ (c ∈ pC7.conns ∨
      ∃ n, n ∈ pC7.units.map (fun u => u.name) ∧ strStartsWith (nodeSuffix n) "ds_" = true ∧
        c = sinkConn n)) :=
  c7_sink_classification "o" "r" (pC7.units.map (fun u => u.name)) pC7 outC7 rfl (by decide)

theorem contains_eq_of_perm (l l' : List String) (a : String) (h : l.Perm l') :
    l.contains a = l'.contains a := by
  by_cases hm : a ∈ l
  · have h1 : l.contains a = true := List.elem_iff.mpr hm
    have h2 : l'.contains a = true := List.elem_iff.mpr (h.mem_iff.mp hm)
    rw [h1, h2]
  · have hm' : a ∉ l' := fun hx => hm (h.mem_iff.mpr hx)
    cases hv : l.contains a
    · cases hv' : l'.contains a
      · rfl
      · exact absurd (List.elem_iff.mp hv') hm'
    · exact absurd (List.elem_iff.mp hv) hm

theorem sinkUpd_perm (outD repD : String) (names names' : List String) (u : ProcUnit)
    (h : names.Perm names') :
    sinkUpd outD repD names u = sinkUpd outD repD names' u := by
  unfold sinkUpd
  rw [contains_eq_of_perm names names' u.name h]

theorem addConns_single_ok_guard (conns : List Conn) (c : Conn) (out : List Conn)
    (h : addConns conns [c] = Except.ok out) :
    conns.any (fun d => d.dst == c.dst && d.dstSlot == c.dstSlot) = false := by
  unfold addConns at h
  split at h
  · exact absurd h (by simp)
  · next hg =>
    cases hv : conns.any (fun d => d.dst == c.dst && d.dstSlot == c.dstSlot)
    · rfl
    · exact absurd hv hg

theorem keyHit_append (conns extra : List Conn) (n : String) :
    keyHit (conns ++ extra) n = (keyHit conns n || keyHit extra n) := by
  unfold keyHit
  rw [List.any_append]

theorem sinkPass_ok_no_prior_keyHit (outD repD : String) (names : List String)
    (p out : Pipeline) (h : sinkPass outD repD names p = Except.ok out) :
    ∀ n ∈ names, strStartsWith (nodeSuffix n) "ds_" = true → keyHit p.conns n = false := by
  induction names generalizing p with
  | nil =>
    intro n hn
    exact absurd hn (List.not_mem_nil n)
  | cons m rest ih =>
    intro n hn hstrict
    cases hstep : sinkStep outD repD p m with
    | error e =>
      rw [sinkPass_cons_err outD repD m rest p e hstep] at h
      exact absurd h (by simp)
    | ok p2 =>
      rw [sinkPass_cons_ok outD repD m rest p p2 hstep] at h
      rcases List.mem_cons.mp hn with rfl | hn'
      · have hds : strStartsWith (nodeSuffix n) "ds" = true := strict_implies_ds _ hstrict
        rw [sinkStep_isSink outD repD p n hds] at hstep
        cases ha : addConns p.conns [sinkConn n] with
        | error e =>
          rw [sinkStepSink_strict_err outD repD p n e hstrict ha] at hstep
          exact absurd hstep (by simp)
        | ok conns2 =>
          exact addConns_single_ok_guard p.conns (sinkConn n) conns2 ha
      · have hkey2 := ih p2 h n hn' hstrict
        rcases sinkStep_ok_cases outD repD p p2 m hstep with ⟨_, hc2⟩
        rw [hc2, keyHit_append] at hkey2
        exact (Bool.or_eq_false_iff.mp hkey2).1

theorem sinkPass_succeeds (outD repD : String) (names : List String) (p : Pipeline)
    (hnd : names.Nodup)
    (hcond : ∀ n ∈ names, strStartsWith (nodeSuffix n) "ds_" = true →
      keyHit p.conns n = false) :
    ∃ out, sinkPass outD repD names p = Except.ok out := by
  induction names generalizing p with
  | nil => exact ⟨p, rfl⟩
  | cons m rest ih =>
    have hndr : rest.Nodup := (List.nodup_cons.mp hnd).2
    have hmnr : m ∉ rest := (List.nodup_cons.mp hnd).1
    by_cases hds : strStartsWith (nodeSuffix m) "ds" = true
    · by_cases hstrict : strStartsWith (nodeSuffix m) "ds_" = true
      · have hkey : keyHit p.conns m = false := hcond m (List.mem_cons_self m rest) hstrict
        have ha : addConns p.conns [sinkConn m] = Except.ok (p.conns ++ [sinkConn m]) := by
          unfold addConns
          rw [if_neg (by rw [show (p.conns.any fun d => d.dst == (sinkConn m).dst && d.dstSlot == (sinkConn m).dstSlot) = keyHit p.conns m from rfl, hkey]; simp)]
          rfl
        have hstep : sinkStep outD repD p m =
            Except.ok (Pipeline.mk (sinkUnits p m (sinkBaseDir outD repD m))
              (p.conns ++ [sinkConn m])) := by
          rw [sinkStep_isSink outD repD p m hds,
              sinkStepSink_strict_ok outD repD p m (p.conns ++ [sinkConn m]) hstrict ha]
        rcases ih (Pipeline.mk (sinkUnits p m (sinkBaseDir outD repD m))
            (p.conns ++ [sinkConn m])) hndr (fun n hn hs => by
          rw [show (Pipeline.mk (sinkUnits p m (sinkBaseDir outD repD m))
                (p.conns ++ [sinkConn m])).conns = p.conns ++ [sinkConn m] from rfl,
              keyHit_append]
          rw [hcond n (List.mem_cons_of_mem m hn) hs]
          have hmn : m ≠ n := fun he => hmnr (he ▸ hn)
          have : keyHit [sinkConn m] n = false := by
            unfold keyHit sinkConn
            simp [hmn]
          rw [this]
          rfl) with ⟨out, hout⟩
        exact ⟨out, by rw [sinkPass_cons_ok outD repD m rest p _ hstep]; exact hout⟩
      · have hstrict' : strStartsWith (nodeSuffix m) "ds_" = false := by
          cases hv : strStartsWith (nodeSuffix m) "ds_"
          · rfl
          · exact absurd hv hstrict
        have hstep : sinkStep outD repD p m =
            Except.ok (Pipeline.mk (sinkUnits p m (sinkBaseDir outD repD m)) p.conns) := by
          rw [sinkStep_isSink outD repD p m hds,
              sinkStepSink_nonStrict outD repD p m hstrict']
        rcases ih (Pipeline.mk (sinkUnits p m (sinkBaseDir outD repD m)) p.conns) hndr
            (fun n hn hs => hcond n (List.mem_cons_of_mem m hn) hs) with ⟨out, hout⟩
        exact ⟨out, by rw [sinkPass_cons_ok outD repD m rest p _ hstep]; exact hout⟩
    · have hds' : strStartsWith (nodeSuffix m) "ds" = false := by
        cases hv : strStartsWith (nodeSuffix m) "ds"
        · rfl
        · exact absurd hv hds
      rcases ih p hndr (fun n hn hs => hcond n (List.mem_cons_of_mem m hn) hs) with ⟨out, hout⟩
      exact ⟨out, by
        rw [sinkPass_cons_ok outD repD m rest p p (sinkStep_notSink outD repD p m hds')]
        exact hout⟩

theorem sinkPass_reapply_err (outD repD : String) (names : List String) (q : Pipeline)
    (hex : ∃ n ∈ names, strStartsWith (nodeSuffix n) "ds_" = true)
    (hhit : ∀ n ∈ names, strStartsWith (nodeSuffix n) "ds_" = true →
      keyHit q.conns n = true) :
    sinkPass outD repD names q = Except.error BuildErr.duplicateConnection := by
  induction names generalizing q with
  | nil =>
    rcases hex with ⟨n, hn, -⟩
    exact absurd hn (List.not_mem_nil n)
  | cons m rest ih =>
    by_cases hstrict : strStartsWith (nodeSuffix m) "ds_" = true
    · have hds : strStartsWith (nodeSuffix m) "ds" = true := strict_implies_ds _ hstrict
      have hkey : keyHit q.conns m = true := hhit m (List.mem_cons_self m rest) hstrict
      have ha : addConns q.conns [sinkConn m] = Except.error BuildErr.duplicateConnection := by
        unfold addConns
        rw [if_pos (by rw [show (q.conns.any fun d => d.dst == (sinkConn m).dst && d.dstSlot == (sinkConn m).dstSlot) = keyHit q.conns m from rfl, hkey])]
      have hstep : sinkStep outD repD q m = Except.error BuildErr.duplicateConnection := by
        rw [sinkStep_isSink outD repD q m hds,
            sinkStepSink_strict_err outD repD q m BuildErr.duplicateConnection hstrict ha]
      exact sinkPass_cons_err outD repD m rest q BuildErr.duplicateConnection hstep
    · rcases hex with ⟨n, hn, hns⟩
      rcases List.mem_cons.mp hn with rfl | hn'
      · exact absurd hns hstrict
      · by_cases hds : strStartsWith (nodeSuffix m) "ds" = true
        · have hstrict' : strStartsWith (nodeSuffix m) "ds_" = false := by
            cases hv : strStartsWith (nodeSuffix m) "ds_"
            · rfl
            · exact absurd hv hstrict
          have hstep : sinkStep outD repD q m =
              Except.ok (Pipeline.mk (sinkUnits q m (sinkBaseDir outD repD m)) q.conns) := by
            rw [sinkStep_isSink outD repD q m hds,
                sinkStepSink_nonStrict outD repD q m hstrict']
          rw [sinkPass_cons_ok outD repD m rest q _ hstep]
          exact ih (Pipeline.mk (sinkUnits q m (sinkBaseDir outD repD m)) q.conns)
            ⟨n, hn', hns⟩ (fun n2 hn2 hs2 => hhit n2 (List.mem_cons_of_mem m hn2) hs2)
        · have hds' : strStartsWith (nodeSuffix m) "ds" = false := by
            cases hv : strStartsWith (nodeSuffix m) "ds"
            · rfl
            · exact absurd hv hds
          rw [sinkPass_cons_ok outD repD m rest q q (sinkStep_notSink outD repD q m hds')]
          exact ih q ⟨n, hn', hns⟩ (fun n2 hn2 hs2 => hhit n2 (List.mem_cons_of_mem m hn2) hs2)

/-- C8 (amended): the sink-attachment pass is order-independent across sinks —
visiting the names in any other order still succeeds, assigns the same
directories, and records the same set of provenance connections (up to
recording order); but it is not idempotent: re-applying the pass to the
finalized pipeline fails with the duplicate-connection error as soon as any
visited node carries the strict `'ds_'` prefix, because the source-identifier
slot is already connected. -/
theorem c8_sink_pass_amended (outD repD : String) (names names' : List String)
    (p out : Pipeline) (hnd : names.Nodup)
    (h : sinkPass outD repD names p = Except.ok out)
    (hperm : names.Perm names') :
    (∃ out', sinkPass outD repD names' p = Except.ok out' ∧
       out'.units = out.units ∧ out.conns.Perm out'.conns) ∧
    ((∃ n ∈ names, strStartsWith (nodeSuffix n) "ds_" = true) →
      sinkPass outD repD names out = Except.error BuildErr.duplicateConnection) := by
  rcases sinkPass_ok_closed outD repD names p out h with ⟨hu, hc⟩
  constructor
  · have hnd' : names'.Nodup := hperm.nodup_iff.mp hnd
    have hcond' : ∀ n ∈ names', strStartsWith (nodeSuffix n) "ds_" = true →
        keyHit p.conns n = false := fun n hn hs =>
      sinkPass_ok_no_prior_keyHit outD repD names p out h n (hperm.mem_iff.mpr hn) hs
    rcases sinkPass_succeeds outD repD names' p hnd' hcond' with ⟨out', hout'⟩
    rcases sinkPass_ok_closed outD repD names' p out' hout' with ⟨hu', hc'⟩
    refine ⟨out', hout', ?_, ?_⟩
    · rw [hu, hu']
      exact (List.map_congr_left
        (fun u _ => sinkUpd_perm outD repD names names' u hperm)).symm
    · rw [hc, hc']
      exact List.Perm.append_left p.conns ((hperm.filter _).map _)
  · intro hex
    apply sinkPass_reapply_err
    · exact hex
    · intro n hn hs
      rw [hc, keyHit_append]
      have hk : keyHit (strictConns names) n = true := by
        unfold keyHit
        rw [List.any_eq_true]
        exact ⟨sinkConn n, (mem_strictConns names _).mpr ⟨n, hn, hs, rfl⟩, by simp [sinkConn]⟩
      rw [hk, Bool.or_true]

theorem c8_sink_pass_amended_witness :
    (∃ out', sinkPass "o" "r" ["x", "ds_a"] pE8 = Except.ok out' ∧
       out'.units = outE8.units ∧ outE8.conns.Perm out'.conns) ∧
    ((∃ n ∈ ["ds_a", "x"], strStartsWith (nodeSuffix n) "ds_" = true) →
      sinkPass "o" "r" ["ds_a", "x"] outE8 = Except.error BuildErr.duplicateConnection) :=
  c8_sink_pass_amended "o" "r" ["ds_a", "x"] ["x", "ds_a"] pE8 outE8
    (by decide) (by decide) (by decide)

theorem lookupUnit_mem (units : List ProcUnit) (nm : String) (u : ProcUnit)
    (h : lookupUnit units nm = some u) : u ∈ units ∧ u.name = nm := by
  refine ⟨List.mem_of_find?_eq_some h, ?_⟩
  have := List.find?_some h
  simpa using this

theorem buildPass1_forall2 (env : Env) (skip : Bool) (l : List NodeSpec)
    (us : List ProcUnit) (h : buildPass1 env skip l = Except.ok us) :
    List.Forall₂ (fun ns u => resolveNode env skip ns = Except.ok u) l us := by
  induction l generalizing us with
  | nil =>
    cases Except.ok.inj (h : Except.ok [] = Except.ok us)
    exact List.Forall₂.nil
  | cons ns rest ih =>
    cases hres : resolveNode env skip ns with
    | error e =>
      rw [buildPass1_cons_err env skip ns rest e hres] at h
      exact absurd h (by simp)
    | ok u =>
      cases hrest : buildPass1 env skip rest with
      | error e =>
        rw [buildPass1_cons_ok1 env skip ns rest u e hres hrest] at h
        exact absurd h (by simp)
      | ok us' =>
        rw [buildPass1_cons_ok env skip ns rest u us' hres hrest] at h
        cases Except.ok.inj h
        exact List.Forall₂.cons hres (ih us' hrest)

theorem resolveNode_name (env : Env) (skip : Bool) (ns : NodeSpec) (u : ProcUnit)
    (h : resolveNode env skip ns = Except.ok u) : ns.name = some u.name ∧ u.name ≠ "" := by
  rcases hns : ns.name with _ | nm
  · unfold resolveNode at h
    rw [hns] at h
    exact absurd h (by simp)
  · by_cases hnm : nm = ""
    · subst hnm
      unfold resolveNode at h
      rw [hns] at h
      exact absurd h (by simp)
    · rw [resolveNode_eq_wfs env skip ns nm hns hnm, wfs_fst env skip ns nm hns] at h
      split at h
      · have hrec := Except.ok.inj h
        constructor
        · rw [← hrec]
        · rw [← hrec]
          exact hnm
      · exact absurd h (by simp)

theorem buildPass1_names (env : Env) (skip : Bool) (l : List NodeSpec)
    (us : List ProcUnit) (h : buildPass1 env skip l = Except.ok us) :
    us.map (fun u => u.name) = l.map nameD := by
  have h2 := buildPass1_forall2 env skip l us h
  clear h
  induction h2 with
  | nil => rfl
  | @cons ns u l' us' hr h2' ih =>
    have hn := (resolveNode_name env skip ns u hr).1
    simp only [List.map_cons, ih]
    rw [show nameD ns = u.name by rw [nameD, hn]; rfl]

theorem forall2_mem_left {α β : Type} {R : α → β → Prop} {l₁ : List α} {l₂ : List β}
    (h : List.Forall₂ R l₁ l₂) (a : α) (ha : a ∈ l₁) : ∃ b ∈ l₂, R a b := by
  induction h with
  | nil => exact absurd ha (List.not_mem_nil a)
  | cons hr _ ih =>
    rcases List.mem_cons.mp ha with rfl | ha'
    · exact ⟨_, List.mem_cons_self _ _, hr⟩
    · rcases ih ha' with ⟨b, hb, hrb⟩
      exact ⟨b, List.mem_cons_of_mem _ hb, hrb⟩

theorem routeUpstream_ok_inv (env : Env) (units : List ProcUnit) (nm upn : String)
    (cs : List Conn) (h : routeUpstream env units nm upn = Except.ok cs) :
    ∃ up me, lookupUnit units upn = some up ∧ lookupUnit units nm = some me ∧
      _check_repeats (units.map (fun u => u.name)) = true ∧
      cs = upstreamCaseConns env nm upn up me := by
  cases hU : lookupUnit units upn with
  | none =>
    rw [routeUpstream_noUp env units nm upn hU] at h
    exact absurd h (by simp)
  | some up =>
    cases hme : lookupUnit units nm with
    | none =>
      rw [routeUpstream_noMe env units nm upn up hU hme] at h
      exact absurd h (by simp)
    | some me =>
      cases hchk : _check_repeats (units.map (fun u => u.name)) with
      | false =>
        rw [routeUpstream_chkfail env units nm upn up me hU hme hchk] at h
        exact absurd h (by simp)
      | true =>
        rw [routeUpstream_ok env units nm upn up me hU hme hchk] at h
        exact ⟨up, me, rfl, rfl, rfl, (Except.ok.inj h).symm⟩

theorem routeNode_ok_inv (env : Env) (units : List ProcUnit) (ns : NodeSpec)
    (cs : List Conn) (h : routeNode env units ns = Except.ok cs) :
    ∃ nm, ns.name = some nm ∧
      ((ns.input.getD "qsiprep" = "qsiprep" ∧ cs = qsiprepSentinelConns env nm) ∨
       (ns.input.getD "qsiprep" ≠ "qsiprep" ∧
         routeUpstream env units nm (ns.input.getD "qsiprep") = Except.ok cs)) := by
  rcases hns : ns.name with _ | nm
  · rw [routeNode_none env units ns hns] at h
    exact absurd h (by simp)
  · by_cases hget : ns.input.getD "qsiprep" = "qsiprep"
    · rw [routeNode_sentinel env units ns nm hns hget] at h
      exact ⟨nm, rfl, Or.inl ⟨hget, (Except.ok.inj h).symm⟩⟩
    · rw [routeNode_up env units ns nm hns hget] at h
      exact ⟨nm, rfl, Or.inr ⟨hget, h⟩⟩

theorem mem_qsiprepSentinelConns (env : Env) (nm : String) (c : Conn) :
    c ∈ qsiprepSentinelConns env nm ↔
      ∃ f, f ∈ env.recon_workflow_input_fields ∧
        c = { src := CSource.global, srcSlot := f, dst := nm, dstSlot := "inputnode." ++ f } := by
  unfold qsiprepSentinelConns as_connections
  simp only [List.map_map, List.mem_map, Function.comp]
  constructor
  · rintro ⟨f, hf, rfl⟩
    exact ⟨f, hf, rfl⟩
  · rintro ⟨f, hf, rfl⟩
    exact ⟨f, hf, rfl⟩

theorem build_ok_inv (env : Env) (outD repD : String) (skip : Bool) (spec : WorkflowSpec)
    (p : Pipeline) (h : init_dwi_recon_workflow env outD repD skip spec = Except.ok p) :
    ∃ units conns, buildPass1 env skip spec.nodes = Except.ok units ∧
      _check_repeats (units.map (fun u => u.name)) = true ∧
      buildPass2 env units spec.nodes [] = Except.ok conns ∧
      sinkPass outD repD (units.map (fun u => u.name))
        (Pipeline.mk units conns) = Except.ok p := by
  cases hp1 : buildPass1 env skip spec.nodes with
  | error e =>
    rw [build_p1err env outD repD skip spec e hp1] at h
    exact absurd h (by simp)
  | ok units =>
    cases hchk : _check_repeats (units.map (fun u => u.name)) with
    | false =>
      rw [build_chkfail env outD repD skip spec units hp1 hchk] at h
      exact absurd h (by simp)
    | true =>
      cases hp2 : buildPass2 env units spec.nodes [] with
      | error e =>
        rw [build_p2err env outD repD skip spec units e hp1 hchk hp2] at h
        exact absurd h (by simp)
      | ok conns =>
        rw [build_sink_eq env outD repD skip spec units conns hp1 hchk hp2] at h
        exact ⟨units, conns, rfl, hchk, hp2, h⟩

theorem addConns_keys_nodup (conns new out : List Conn)
    (h : addConns conns new = Except.ok out)
    (hn : (conns.map (fun c => (c.dst, c.dstSlot))).Nodup) :
    (out.map (fun c => (c.dst, c.dstSlot))).Nodup := by
  induction new generalizing conns with
  | nil =>
    cases Except.ok.inj (h : Except.ok conns = Except.ok out)
    exact hn
  | cons c rest ih =>
    unfold addConns at h
    split at h
    · exact absurd h (by simp)
    · next hg =>
      apply ih (conns ++ [c]) h
      rw [List.map_append, List.nodup_append]
      refine ⟨hn, by simp, ?_⟩
      intro a ha hb
      simp only [List.map_cons, List.map_nil, List.mem_singleton] at hb
      subst hb
      rcases List.mem_map.mp ha with ⟨d, hd, hdk⟩
      have hga : conns.any (fun d => d.dst == c.dst && d.dstSlot == c.dstSlot) = false := by
        cases hv : conns.any (fun d => d.dst == c.dst && d.dstSlot == c.dstSlot)
        · rfl
        · exact absurd hv hg
      rw [List.any_eq_false] at hga
      apply hga d hd
      have h1 := congrArg Prod.fst hdk
      have h2 := congrArg Prod.snd hdk
      simp only at h1 h2
      simp [h1, h2]

theorem buildPass2_keys_nodup (env : Env) (units : List ProcUnit) (l : List NodeSpec)
    (acc out : List Conn) (h : buildPass2 env units l acc = Except.ok out)
    (hn : (acc.map (fun c => (c.dst, c.dstSlot))).Nodup) :
    (out.map (fun c => (c.dst, c.dstSlot))).Nodup := by
  induction l generalizing acc with
  | nil =>
    cases Except.ok.inj (h : Except.ok acc = Except.ok out)
    exact hn
  | cons ns rest ih =>
    cases hroute : routeNode env units ns with
    | error e =>
      rw [buildPass2_cons_routeErr env units ns rest acc e hroute] at h
      exact absurd h (by simp)
    | ok new =>
      cases hadd : addConns acc new with
      | error e =>
        rw [buildPass2_cons_addErr env units ns rest acc new e hroute hadd] at h
        exact absurd h (by simp)
      | ok conns' =>
        rw [buildPass2_cons_ok env units ns rest acc new conns' hroute hadd] at h
        exact ih conns' h (addConns_keys_nodup acc new conns' hadd hn)

theorem buildPass2_sub (env : Env) (units : List ProcUnit) (l : List NodeSpec)
    (acc out : List Conn) (h : buildPass2 env units l acc = Except.ok out) :
    ∀ c ∈ acc, c ∈ out := by
  induction l generalizing acc with
  | nil =>
    cases Except.ok.inj (h : Except.ok acc = Except.ok out)
    exact fun c hc => hc
  | cons ns rest ih =>
    cases hroute : routeNode env units ns with
    | error e =>
      rw [buildPass2_cons_routeErr env units ns rest acc e hroute] at h
      exact absurd h (by simp)
    | ok new =>
      cases hadd : addConns acc new with
      | error e =>
        rw [buildPass2_cons_addErr env units ns rest acc new e hroute hadd] at h
        exact absurd h (by simp)
      | ok conns' =>
        rw [buildPass2_cons_ok env units ns rest acc new conns' hroute hadd] at h
        intro c hc
        apply ih conns' h
        rw [addConns_ok acc new conns' hadd]
        exact List.mem_append_left _ hc

theorem buildPass2_mem (env : Env) (units : List ProcUnit) (l : List NodeSpec)
    (acc out : List Conn) (h : buildPass2 env units l acc = Except.ok out) :
    ∀ c ∈ out, c ∈ acc ∨
      ∃ ns, ns ∈ l ∧ ∃ cs, routeNode env units ns = Except.ok cs ∧ c ∈ cs := by
  induction l generalizing acc with
  | nil =>
    cases Except.ok.inj (h : Except.ok acc = Except.ok out)
    exact fun c hc => Or.inl hc
  | cons ns rest ih =>
    cases hroute : routeNode env units ns with
    | error e =>
      rw [buildPass2_cons_routeErr env units ns rest acc e hroute] at h
      exact absurd h (by simp)
    | ok new =>
      cases hadd : addConns acc new with
      | error e =>
        rw [buildPass2_cons_addErr env units ns rest acc new e hroute hadd] at h
        exact absurd h (by simp)
      | ok conns' =>
        rw [buildPass2_cons_ok env units ns rest acc new conns' hroute hadd] at h
        intro c hc
        rcases ih conns' h c hc with hacc | ⟨ns', h1, cs, h2, h3⟩
        · rw [addConns_ok acc new conns' hadd] at hacc
          rcases List.mem_append.mp hacc with h4 | h4
          · exact Or.inl h4
          · exact Or.inr ⟨ns, List.mem_cons_self ns rest, new, hroute, h4⟩
        · exact Or.inr ⟨ns', List.mem_cons_of_mem ns h1, cs, h2, h3⟩

theorem buildPass2_route (env : Env) (units : List ProcUnit) (l : List NodeSpec)
    (acc out : List Conn) (h : buildPass2 env units l acc = Except.ok out) :
    ∀ ns ∈ l, ∃ cs, routeNode env units ns = Except.ok cs ∧ ∀ c ∈ cs, c ∈ out := by
  induction l generalizing acc with
  | nil => intro ns hns; exact absurd hns (List.not_mem_nil ns)
  | cons m rest ih =>
    cases hroute : routeNode env units m with
    | error e =>
      rw [buildPass2_cons_routeErr env units m rest acc e hroute] at h
      exact absurd h (by simp)
    | ok new =>
      cases hadd : addConns acc new with
      | error e =>
        rw [buildPass2_cons_addErr env units m rest acc new e hroute hadd] at h
        exact absurd h (by simp)
      | ok conns' =>
        rw [buildPass2_cons_ok env units m rest acc new conns' hroute hadd] at h
        intro ns hns
        rcases List.mem_cons.mp hns with rfl | hns'
        · refine ⟨new, hroute, fun c hc => ?_⟩
          apply buildPass2_sub env units rest conns' out h
          rw [addConns_ok acc new conns' hadd]
          exact List.mem_append_right _ hc
        · exact ih conns' h ns hns'

theorem inputnode_ne_source (f : String) : "inputnode." ++ f ≠ "source_file" := by
  intro h
  have h2 : "inputnode.".data ++ f.data = "source_file".data := congrArg String.data h
  have h3 : "inputnode.".data <+: "source_file".data := ⟨f.data, h2⟩
  have h4 := List.isPrefixOf_iff_prefix.mpr h3
  rw [show ("inputnode.".data.isPrefixOf "source_file".data) = false from by decide] at h4
  cases h4

theorem routeNode_conn_facts (env : Env) (units : List ProcUnit) (ns : NodeSpec)
    (cs : List Conn) (h : routeNode env units ns = Except.ok cs) :
    ∀ c ∈ cs, c.dst = nameD ns ∧ srcOk (units.map (fun u => u.name)) c = true ∧
      ∃ f, c.dstSlot = "inputnode." ++ f := by
  rcases routeNode_ok_inv env units ns cs h with ⟨nm, hns, hcase⟩
  have hnd : nameD ns = nm := by
    rw [nameD, hns]
    rfl
  rcases hcase with ⟨hget, rfl⟩ | ⟨hget, hup⟩
  · intro c hc
    rcases (mem_qsiprepSentinelConns env nm c).mp hc with ⟨f, hf, rfl⟩
    exact ⟨by rw [hnd], rfl, f, rfl⟩
  · rcases routeUpstream_ok_inv env units nm _ cs hup with ⟨up, me, hU, hme, hchk, rfl⟩
    intro c hc
    rcases (mem_upstreamCaseConns env nm _ up me c).mp hc with
      ⟨s, h1, h2, rfl⟩ | ⟨f, h1, h2, rfl⟩
    · refine ⟨by rw [hnd], ?_, s, rfl⟩
      rcases lookupUnit_mem units _ up hU with ⟨hmem, hname⟩
      have hin : (ns.input.getD "qsiprep") ∈ units.map (fun u => u.name) := by
        rw [← hname]
        exact List.mem_map_of_mem _ hmem
      exact List.elem_iff.mpr hin
    · exact ⟨by rw [hnd], rfl, f, rfl⟩

/-- C4 (amended): every pipeline the builder returns has no dangling
connection endpoints (each destination is a unit of the pipeline and each
source is a unit of the pipeline or the global source) and no two connections
target the same (destination unit, destination slot) pair; acyclicity, the
remaining part of the claimed DAG property, is not guaranteed (see the
counterexample). -/
theorem c4_dag_amended (env : Env) (outD repD : String) (skip : Bool) (spec : WorkflowSpec)
    (p : Pipeline) (h : init_dwi_recon_workflow env outD repD skip spec = Except.ok p) :
    noDupTargets p ∧ noDangling p := by
  rcases build_ok_inv env outD repD skip spec p h with ⟨units, conns, hp1, hchk, hp2, hsink⟩
  rcases sinkPass_ok_closed outD repD (units.map (fun u => u.name))
    (Pipeline.mk units conns) p hsink with ⟨hu0, hc0⟩
  have hu' : p.units = units.map (sinkUpd outD repD (units.map (fun u => u.name))) := hu0
  have hc' : p.conns = conns ++ strictConns (units.map (fun u => u.name)) := hc0
  have hpn : p.units.map (fun u => u.name) = units.map (fun u => u.name) := by
    rw [hu', List.map_map]
    exact List.map_congr_left (fun u _ => sinkUpd_name outD repD _ u)
  have hnodup : (units.map (fun u => u.name)).Nodup := (check_repeats_iff _).mp hchk
  constructor
  · unfold noDupTargets
    rw [hc', List.map_append, List.nodup_append]
    refine ⟨buildPass2_keys_nodup env units spec.nodes [] conns hp2 (by simp), ?_, ?_⟩
    · unfold strictConns
      rw [List.map_map]
      apply List.Nodup.map
      · intro a b hab
        exact congrArg Prod.fst hab
      · exact hnodup.filter _
    · intro a ha hb
      rcases List.mem_map.mp ha with ⟨c, hcmem, rfl⟩
      rcases List.mem_map.mp hb with ⟨c2, hc2mem, hkey⟩
      rcases (mem_strictConns _ c2).mp hc2mem with ⟨n, hn, hstrict, rfl⟩
      rcases buildPass2_mem env units spec.nodes [] conns hp2 c hcmem with
        hnil | ⟨ns, _, cs, hroute, hcs⟩
      · exact absurd hnil (List.not_mem_nil c)
      · rcases routeNode_conn_facts env units ns cs hroute c hcs with ⟨_, _, f, hslot⟩
        have h2 := congrArg Prod.snd hkey
        simp only at h2
        rw [hslot] at h2
        exact inputnode_ne_source f h2.symm
  · unfold noDangling
    intro c hcm
    rw [hpn]
    rw [hc'] at hcm
    rcases List.mem_append.mp hcm with h1 | h1
    · rcases buildPass2_mem env units spec.nodes [] conns hp2 c h1 with
        hnil | ⟨ns, hnsmem, cs, hroute, hcs⟩
      · exact absurd hnil (List.not_mem_nil c)
      · rcases routeNode_conn_facts env units ns cs hroute c hcs with ⟨hdst, hsrc, -⟩
        refine ⟨?_, hsrc⟩
        rw [hdst, buildPass1_names env skip spec.nodes units hp1]
        exact List.mem_map_of_mem nameD hnsmem
    · rcases (mem_strictConns _ c).mp h1 with ⟨n, hn, -, rfl⟩
      exact ⟨hn, rfl⟩

/-- C6: for every NodeSpec whose `input` is absent or the sentinel, in every
pipeline the builder returns, each declared input slot of the destination unit
(all of which belong to the global field set) is wired from the matching-named
field of the global source, and every connection into that unit originates
from the global source, never from another unit. -/
theorem c6_sentinel_global_routing (env : Env) (outD repD : String) (skip : Bool)
    (spec : WorkflowSpec) (ns : NodeSpec) (nm : String) (u : ProcUnit) (p : Pipeline)
    (hin : ns ∈ spec.nodes) (hnm : ns.name = some nm)
    (hsent : ns.input = none ∨ ns.input = some "qsiprep")
    (h : init_dwi_recon_workflow env outD repD skip spec = Except.ok p)
    (_hu : lookupUnit p.units nm = some u)
    (hsub : ∀ s ∈ u.inSlots, s ∈ env.recon_workflow_input_fields) :
    (∀ s ∈ u.inSlots,
      ({ src := CSource.global, srcSlot := s, dst := nm,
         dstSlot := "inputnode." ++ s } : Conn) ∈ p.conns) ∧
    (∀ c ∈ p.conns, c.dst = nm → c.src = CSource.global) := by
  rcases build_ok_inv env outD repD skip spec p h with ⟨units, conns, hp1, hchk, hp2, hsink⟩
  rcases sinkPass_ok_closed outD repD (units.map (fun u2 => u2.name))
    (Pipeline.mk units conns) p hsink with ⟨hu0, hc0⟩
  have hc' : p.conns = conns ++ strictConns (units.map (fun u2 => u2.name)) := hc0
  have hget : ns.input.getD "qsiprep" = "qsiprep" := by
    rcases hsent with h2 | h2 <;> rw [h2] <;> rfl
  have hroute : routeNode env units ns = Except.ok (qsiprepSentinelConns env nm) :=
    routeNode_sentinel env units ns nm hnm hget
  have hnd : nameD ns = nm := by
    rw [nameD, hnm]
    rfl
  constructor
  · intro s hs
    rcases buildPass2_route env units spec.nodes [] conns hp2 ns hin with ⟨cs, hcs1, hcs2⟩
    rw [hroute] at hcs1
    have hcseq : qsiprepSentinelConns env nm = cs := Except.ok.inj hcs1
    have hmem : Conn.mk CSource.global s nm ("inputnode." ++ s) ∈ cs := by
      rw [← hcseq]
      exact (mem_qsiprepSentinelConns env nm _).mpr ⟨s, hsub s hs, rfl⟩
    rw [hc']
    exact List.mem_append_left _ (hcs2 _ hmem)
  · intro c hcm hdst
    rw [hc'] at hcm
    rcases List.mem_append.mp hcm with h1 | h1
    · rcases buildPass2_mem env units spec.nodes [] conns hp2 c h1 with
        hnil | ⟨ns', hns'mem, cs', hroute', hcs'⟩
      · exact absurd hnil (List.not_mem_nil c)
      · rcases routeNode_conn_facts env units ns' cs' hroute' c hcs' with ⟨hdst', -, -⟩
        have hnames_nodup : (spec.nodes.map nameD).Nodup := by
          rw [← buildPass1_names env skip spec.nodes units hp1]
          exact (check_repeats_iff _).mp hchk
        have heq : nameD ns' = nameD ns := by
          rw [← hdst', hdst, hnd]
        have hsame : ns' = ns := List.inj_on_of_nodup_map hnames_nodup hns'mem hin heq
        subst hsame
        rw [hroute] at hroute'
        have hcseq : cs' = qsiprepSentinelConns env nm := (Except.ok.inj hroute').symm
        rw [hcseq] at hcs'
        rcases (mem_qsiprepSentinelConns env nm c).mp hcs' with ⟨f, -, rfl⟩
        rfl
    · rcases (mem_strictConns _ c).mp h1 with ⟨n, -, -, rfl⟩
      rfl

theorem c4_dag_amended_witness : noDupTargets pW ∧ noDangling pW :=
  c4_dag_amended envW "o" "r" false specW pW (by decide)

theorem c6_sentinel_global_routing_witness :
    (∀ s ∈ uW1.inSlots,
      (Conn.mk CSource.global s "n1" ("inputnode." ++ s)) ∈ pW.conns) ∧
    (∀ c ∈ pW.conns, c.dst = "n1" → c.src = CSource.global) :=
  c6_sentinel_global_routing envW "o" "r" false specW nsC6W "n1" uW1 pW
    (by decide) rfl (Or.inl rfl) (by decide) (by decide) (by decide)

end QsiRecon
